import Mathlib

/-!
Consultation booking: the scheduling core.

A shallow embedding of the booking and slot scheduling code of the
consultation-booking service (Go, gorm over SQL, a Redis cache):

* `internal/models/user.go`: the rows `Expert`, `AvailableSlot`, `Booking`, `Notification`;
* `internal/services/expert_service.go`: `CreateAvailableSlot`, `UpdateBookingStatus`,
  `updateAvailableSlotsCache`;
* `internal/services/booking_service.go`: `CreateBooking`, `CancelBooking`,
  `UpdateBookingStatus`;
* `internal/services/expert_service.go`: also `GetAvailableSlots`;
* `internal/services/notification_service.go`: `CreateNotification`;
* `internal/worker/worker.go`: `processReminders`, `processExpiredBookings`,
  `cleanupOldNotifications` and one tick of `Start`.

The database is a record of tables, each a list of rows in insertion order
(ascending primary key). Every service method becomes a function from the
store (and the value `time.Now()` had during the call) to an error or to the
store after the call. Instants are integers counted in seconds. Database and
Redis commands are taken to succeed, so the only errors are the ones the
methods raise themselves; the columns `created_at`, `updated_at` and
`deleted_at` of bookings and slots are left out, since no row of these tables
is ever deleted.
-/

namespace ConsultationBooking

/-! ## Data model (`internal/models/user.go`) -/

/-- The Go duration `time.Hour`, in seconds. -/
def hour : Int := 3600

/-- Row of table `users`: the columns the worker reads. -/
structure User where
  ID : Nat
  Email : String
  Name : String
deriving DecidableEq, Repr

/-- Row of table `experts`: the columns the scheduling code reads. -/
structure Expert where
  ID : Nat
  UserID : Nat
  IsAvailable : Bool
deriving DecidableEq, Repr

/-- Row of table `available_slots`. -/
structure AvailableSlot where
  ID : Nat
  ExpertID : Nat
  StartTime : Int
  EndTime : Int
  IsBooked : Bool
deriving DecidableEq, Repr

/-- Row of table `bookings`. `Status` is a free string column, as in the source. -/
structure Booking where
  ID : Nat
  UserID : Nat
  ExpertID : Nat
  StartTime : Int
  EndTime : Int
  Status : String
  Notes : String
  Format : String
  CancelReason : String
deriving DecidableEq, Repr

/-- Row of table `notifications`. `DeletedAt` is the soft-delete column
(`gorm.DeletedAt`): a row with a value there is invisible to every query. -/
structure Notification where
  ID : Nat
  UserID : Nat
  Title : String
  Message : String
  NotificationType : String
  IsRead : Bool
  CreatedAt : Int
  DeletedAt : Option Int
deriving DecidableEq, Repr

/-- Request body of `CreateBooking` (`services.CreateBookingRequest`). -/
structure CreateBookingRequest where
  ExpertID : Nat
  StartTime : Int
  EndTime : Int
  Notes : String
  Format : String
deriving DecidableEq, Repr

/-- Request body of `CreateAvailableSlot` (`services.CreateSlotRequest`). -/
structure CreateSlotRequest where
  StartTime : Int
  EndTime : Int
deriving DecidableEq, Repr

/-- One Redis key `available_slots:<expertID>` with its JSON value (the slot list)
and the instant at which its one hour time-to-live runs out. -/
structure CacheEntry where
  expertID : Nat
  slots : List AvailableSlot
  expiresAt : Int
deriving DecidableEq, Repr

/-- The persistent state: the SQL tables, the auto-increment counters of the
primary keys, and the Redis keys. -/
structure Store where
  users : List User := []
  experts : List Expert := []
  slots : List AvailableSlot := []
  bookings : List Booking := []
  notifications : List Notification := []
  nextSlotID : Nat := 1
  nextBookingID : Nat := 1
  nextNotificationID : Nat := 1
  cache : List CacheEntry := []
deriving DecidableEq, Repr

/-- The errors the service methods return, one constructor per message. -/
inductive Error where
  /-- The message `expert not found` of `CreateBooking`. -/
  | expertNotFound
  /-- The message `expert is not available`. -/
  | expertNotAvailable
  /-- The message `you have a conflicting booking at this time`. -/
  | userConflict
  /-- The message `expert has a conflicting booking at this time`. -/
  | expertConflict
  /-- The message `time slot is not available`. -/
  | slotNotAvailable
  /-- The message `booking not found`. -/
  | bookingNotFound
  /-- The message `unauthorized to cancel this booking`. -/
  | unauthorized
  /-- The message `cannot cancel booking less than 1 hour before start time`. -/
  | lateCancellation
  /-- The message `time slot conflicts with existing slot`. -/
  | slotConflict
  /-- The error `gorm.ErrRecordNotFound`, returned as is by `CreateAvailableSlot`. -/
  | recordNotFound
deriving DecidableEq, Repr

deriving instance DecidableEq for Except

/-! ## Status values -/

/-- Status string `pending`. -/
def pending : String := "pending"

/-- Status string `confirmed`. -/
def confirmed : String := "confirmed"

/-- Status string `rejected`. -/
def rejected : String := "rejected"

/-- Status string `cancelled`. -/
def cancelled : String := "cancelled"

/-- Status string `completed`. -/
def completed : String := "completed"

/-- Status string `missed`. -/
def missed : String := "missed"

/-- The booking state machine in the words of the specification: the pairs
`(current, new)` that are edges of the diagram of section 4.2. -/
def specEdge (current new : String) : Bool :=
  (current == pending && (new == confirmed || new == rejected || new == missed ||
    new == cancelled)) ||
  (current == confirmed && (new == cancelled || new == completed))

/-! ## Interval predicates -/

/-- The interval condition shared by the three conflict queries of the source,
`(start_time <= ? AND end_time > ?) OR (start_time < ? AND end_time >= ?)`
with the arguments `reqStart, reqStart, reqEnd, reqEnd`. -/
def conflictCondition (start_time end_time reqStart reqEnd : Int) : Bool :=
  (decide (start_time ≤ reqStart) && decide (end_time > reqStart)) ||
    (decide (start_time < reqEnd) && decide (end_time ≥ reqEnd))

/-- Overlap of two half-open intervals in the words of the specification:
`a.start < b.end && b.start < a.end`. -/
def specOverlap (aStart aEnd bStart bEnd : Int) : Prop :=
  aStart < bEnd ∧ bStart < aEnd

instance (aStart aEnd bStart bEnd : Int) : Decidable (specOverlap aStart aEnd bStart bEnd) := by
  unfold specOverlap; infer_instance

/-- The status filter of the conflict queries: `status NOT IN ('cancelled', 'completed')`. -/
def statusBlocks (status : String) : Bool :=
  status != cancelled && status != completed

/-! ## Queries and updates used by the services -/

/-- The query `db.First(&expert, id)`: the expert with that primary key. -/
def firstExpert (s : Store) (id : Nat) : Option Expert :=
  s.experts.find? (fun e => e.ID == id)

/-- The query `db.First(&booking, id)`: the booking with that primary key. -/
def firstBooking (s : Store) (id : Nat) : Option Booking :=
  s.bookings.find? (fun b => b.ID == id)

/-- The value of the `Expert` association of a `Booking` struct filled by
`db.First` without `Preload("Expert")`: gorm leaves the field at Go's zero value. -/
def unloadedExpert : Expert := { ID := 0, UserID := 0, IsAvailable := false }

/-- The update `Where("id = ?", id).Update("is_booked", true)` on `available_slots`. -/
def markSlotBooked (slots : List AvailableSlot) (id : Nat) : List AvailableSlot :=
  slots.map (fun sl => if sl.ID == id then { sl with IsBooked := true } else sl)

/-- The update `Where("expert_id = ? AND start_time <= ? AND end_time >= ?", ...)
.Update("is_booked", false)` on `available_slots`, run by cancellation and expiry. -/
def freeSlots (slots : List AvailableSlot) (expertID : Nat) (startTime endTime : Int) :
    List AvailableSlot :=
  slots.map (fun sl =>
    if sl.ExpertID == expertID && decide (sl.StartTime ≤ startTime) && decide (sl.EndTime ≥ endTime)
    then { sl with IsBooked := false } else sl)

/-- The update `Where("id = ?", id).Update("status", status)` on `bookings`. -/
def setStatus (bookings : List Booking) (id : Nat) (status : String) : List Booking :=
  bookings.map (fun b => if b.ID == id then { b with Status := status } else b)

/-- The update `Model(&booking).Updates(updates)` of `CancelBooking`, where `updates`
maps `status` to `cancelled` and `cancel_reason` to the reason, on the row with the
primary key of `booking`; given as a map, the update writes both columns, an empty
reason included. -/
def setCancelled (bookings : List Booking) (id : Nat) (reason : String) : List Booking :=
  bookings.map (fun b =>
    if b.ID == id then { b with Status := cancelled, CancelReason := reason } else b)

/-- The query of `GetAvailableSlots` and `updateAvailableSlotsCache`:
`expert_id = ? AND is_booked = false AND start_time > now`, ordered by `start_time`. -/
def queryFreeSlots (s : Store) (expertID : Nat) (now : Int) : List AvailableSlot :=
  (s.slots.filter (fun sl =>
    sl.ExpertID == expertID && sl.IsBooked == false && decide (sl.StartTime > now))).insertionSort
      (fun a b => a.StartTime ≤ b.StartTime)

/-- The Redis command `SET key value EX ttl`: the key's former value is replaced. -/
def cacheSet (cache : List CacheEntry) (entry : CacheEntry) : List CacheEntry :=
  entry :: cache.filter (fun c => c.expertID != entry.expertID)

namespace ExpertService

/-- The method `updateAvailableSlotsCache`: stores the expert's free future slots
under the expert's cache key for one hour. -/
def updateAvailableSlotsCache (s : Store) (expertID : Nat) (now : Int) : Store :=
  let entry : CacheEntry :=
    { expertID := expertID, slots := queryFreeSlots s expertID now, expiresAt := now + hour }
  { s with cache := cacheSet s.cache entry }

/-- The method `ExpertService.CreateAvailableSlot`. -/
def CreateAvailableSlot (s : Store) (expertID : Nat) (req : CreateSlotRequest) (now : Int) :
    Except Error Store :=
  match firstExpert s expertID with
  | none => .error .recordNotFound
  | some _ =>
    let conflictCount := (s.slots.filter (fun sl =>
      sl.ExpertID == expertID &&
        conflictCondition sl.StartTime sl.EndTime req.StartTime req.EndTime)).length
    if conflictCount > 0 then .error .slotConflict
    else
      let slot : AvailableSlot :=
        { ID := s.nextSlotID, ExpertID := expertID, StartTime := req.StartTime,
          EndTime := req.EndTime, IsBooked := false }
      .ok (updateAvailableSlotsCache
        { s with slots := s.slots ++ [slot], nextSlotID := s.nextSlotID + 1 } expertID now)

/-- The method `ExpertService.UpdateBookingStatus`: an unconditional update that
reports no error, also when no row has that id. -/
def UpdateBookingStatus (s : Store) (bookingID : Nat) (status : String) : Except Error Store :=
  .ok { s with bookings := setStatus s.bookings bookingID status }

end ExpertService

namespace BookingService

/-- The method `BookingService.CreateBooking`. -/
def CreateBooking (s : Store) (userID : Nat) (req : CreateBookingRequest) :
    Except Error (Booking × Store) :=
  match firstExpert s req.ExpertID with
  | none => .error .expertNotFound
  | some expert =>
    if !expert.IsAvailable then .error .expertNotAvailable
    else
      let userConflictCount := (s.bookings.filter (fun b =>
        b.UserID == userID && statusBlocks b.Status &&
          conflictCondition b.StartTime b.EndTime req.StartTime req.EndTime)).length
      if userConflictCount > 0 then .error .userConflict
      else
        let expertConflictCount := (s.bookings.filter (fun b =>
          b.ExpertID == req.ExpertID && statusBlocks b.Status &&
            conflictCondition b.StartTime b.EndTime req.StartTime req.EndTime)).length
        if expertConflictCount > 0 then .error .expertConflict
        else
          match s.slots.find? (fun sl =>
            sl.ExpertID == req.ExpertID && decide (sl.StartTime ≤ req.StartTime) &&
              decide (sl.EndTime ≥ req.EndTime) && sl.IsBooked == false) with
          | none => .error .slotNotAvailable
          | some availableSlot =>
            let booking : Booking :=
              { ID := s.nextBookingID, UserID := userID, ExpertID := req.ExpertID,
                StartTime := req.StartTime, EndTime := req.EndTime, Status := pending,
                Notes := req.Notes, Format := req.Format, CancelReason := "" }
            .ok (booking,
              { s with bookings := s.bookings ++ [booking],
                       nextBookingID := s.nextBookingID + 1,
                       slots := markSlotBooked s.slots availableSlot.ID })

/-- The method `BookingService.CancelBooking`; `now` is the value of `time.Now()`. -/
def CancelBooking (s : Store) (bookingID userID : Nat) (reason : String) (now : Int) :
    Except Error Store :=
  match firstBooking s bookingID with
  | none => .error .bookingNotFound
  | some booking =>
    if booking.UserID != userID && unloadedExpert.UserID != userID then .error .unauthorized
    else if decide (now + hour > booking.StartTime) then .error .lateCancellation
    else
      .ok { s with
        bookings := setCancelled s.bookings booking.ID reason,
        slots := freeSlots s.slots booking.ExpertID booking.StartTime booking.EndTime }

/-- The method `BookingService.UpdateBookingStatus`: the same unconditional update
as `ExpertService.UpdateBookingStatus`. -/
def UpdateBookingStatus (s : Store) (bookingID : Nat) (status : String) : Except Error Store :=
  .ok { s with bookings := setStatus s.bookings bookingID status }

end BookingService

namespace Worker

/-- One iteration of the loop of `processExpiredBookings` for the selected row `booking`. -/
def expireOne (s : Store) (booking : Booking) : Store :=
  { s with
    bookings := setStatus s.bookings booking.ID missed,
    slots := freeSlots s.slots booking.ExpertID booking.StartTime booking.EndTime }

/-- The method `Worker.processExpiredBookings`; `now` is the value of `time.Now()`. -/
def processExpiredBookings (s : Store) (now : Int) : Store :=
  let expiredBookings := s.bookings.filter (fun b => decide (b.EndTime < now) && b.Status == pending)
  expiredBookings.foldl expireOne s

end Worker

/-! ## The service as a transition system -/

/-- One call of the scheduling core, with the clock value it observes. -/
inductive Op where
  | createAvailableSlot (expertID : Nat) (req : CreateSlotRequest) (now : Int)
  | createBooking (userID : Nat) (req : CreateBookingRequest)
  | cancelBooking (bookingID userID : Nat) (reason : String) (now : Int)
  | updateBookingStatus (bookingID : Nat) (status : String)
  | expiryPass (now : Int)
deriving DecidableEq, Repr

/-- The store after one call; a call that returns an error has written nothing. -/
def step (s : Store) : Op → Store
  | .createAvailableSlot expertID req now =>
    match ExpertService.CreateAvailableSlot s expertID req now with
    | .ok s' => s'
    | .error _ => s
  | .createBooking userID req =>
    match BookingService.CreateBooking s userID req with
    | .ok (_, s') => s'
    | .error _ => s
  | .cancelBooking bookingID userID reason now =>
    match BookingService.CancelBooking s bookingID userID reason now with
    | .ok s' => s'
    | .error _ => s
  | .updateBookingStatus bookingID status =>
    match ExpertService.UpdateBookingStatus s bookingID status with
    | .ok s' => s'
    | .error _ => s
  | .expiryPass now => Worker.processExpiredBookings s now

/-- The store after a sequence of calls executed one at a time. -/
def run (s : Store) (ops : List Op) : Store :=
  ops.foldl step s

/-- The store with the given experts, no slot, no booking and an empty cache. -/
def emptyStore (experts : List Expert) : Store :=
  { experts := experts }

/-! ## Safety properties of a store -/

/-- The core safety invariant in the words of the specification: two distinct
bookings of the same expert, neither cancelled, never overlap. -/
def ExpertBookingsDisjoint (s : Store) : Prop :=
  ∀ a ∈ s.bookings, ∀ b ∈ s.bookings, a.ID ≠ b.ID → a.ExpertID = b.ExpertID →
    a.Status ≠ cancelled → b.Status ≠ cancelled →
      ¬ specOverlap a.StartTime a.EndTime b.StartTime b.EndTime

instance (s : Store) : Decidable (ExpertBookingsDisjoint s) := by
  unfold ExpertBookingsDisjoint; infer_instance

/-- A call that does not reopen a closed booking: an `UpdateBookingStatus` whose
target row is `cancelled` or `completed` must store `cancelled` or `completed`
again. Every other call qualifies. -/
def Op.keepsClosed (s : Store) : Op → Prop
  | .updateBookingStatus bookingID status =>
    ∀ b ∈ s.bookings, b.ID = bookingID → statusBlocks b.Status = false →
      statusBlocks status = false
  | _ => True

/-- A sequence of calls, executed one at a time from `s`, none of which reopens a
closed booking. -/
def keepsClosedRun (s : Store) : List Op → Prop
  | [] => True
  | op :: ops => op.keepsClosed s ∧ keepsClosedRun (step s op) ops

instance (s : Store) (op : Op) : Decidable (op.keepsClosed s) := by
  cases op <;> unfold Op.keepsClosed <;> infer_instance

instance decidableKeepsClosedRun : (s : Store) → (ops : List Op) →
    Decidable (keepsClosedRun s ops)
  | _, [] => isTrue trivial
  | s, op :: ops =>
    @instDecidableAnd _ _ _ (decidableKeepsClosedRun (step s op) ops)

/-- The booking `b` starts or ends within the booking `a`: the two cases the
conflict queries test, `a.start <= b.start < a.end` and `a.start < b.end <= a.end`. -/
def startsOrEndsWithin (a b : Booking) : Prop :=
  (a.StartTime ≤ b.StartTime ∧ b.StartTime < a.EndTime) ∨
    (a.StartTime < b.EndTime ∧ b.EndTime ≤ a.EndTime)

instance (a b : Booking) : Decidable (startsOrEndsWithin a b) := by
  unfold startsOrEndsWithin; infer_instance

/-- The relation the conflict query of `CreateBooking` maintains between an earlier
row `a` and a later row `b` of the bookings table. -/
def clearOf (a b : Booking) : Prop :=
  a.ID < b.ID ∧
    (a.ExpertID = b.ExpertID → statusBlocks a.Status = true → statusBlocks b.Status = true →
      conflictCondition a.StartTime a.EndTime b.StartTime b.EndTime = false)

/-- The inductive invariant: ids are below the counter and the table is pairwise
`clearOf` in insertion order. -/
def BookingsInv (s : Store) : Prop :=
  (∀ b ∈ s.bookings, b.ID < s.nextBookingID) ∧ s.bookings.Pairwise clearOf


/-! ## Concrete scenarios

Instants of one day in seconds: 10:00 is 36000, 11:00 is 39600, 12:00 is 43200
and 13:00 is 46800. -/

/-- Expert 1, whose user account is user 20. -/
def expertOne : Expert := { ID := 1, UserID := 20, IsAvailable := true }

/-- Expert 2, whose user account is user 21. -/
def expertTwo : Expert := { ID := 2, UserID := 21, IsAvailable := true }

/-- The slot request 11:00 to 12:00. -/
def slotElevenToTwelve : CreateSlotRequest := { StartTime := 39600, EndTime := 43200 }

/-- The slot request 10:00 to 13:00, which strictly contains 11:00 to 12:00. -/
def slotTenToThirteen : CreateSlotRequest := { StartTime := 36000, EndTime := 46800 }

/-- A booking request for 11:00 to 12:00 with the given expert. -/
def bookElevenToTwelve (expertID : Nat) : CreateBookingRequest :=
  { ExpertID := expertID, StartTime := 39600, EndTime := 43200, Notes := "", Format := "online" }

/-- A booking request for 10:00 to 13:00 with the given expert. -/
def bookTenToThirteen (expertID : Nat) : CreateBookingRequest :=
  { ExpertID := expertID, StartTime := 36000, EndTime := 46800, Notes := "", Format := "online" }

/-- Expert 1 has published the slot 11:00 to 12:00. -/
def storeWithInnerSlot : Store :=
  run (emptyStore [expertOne]) [.createAvailableSlot 1 slotElevenToTwelve 0]

/-- Expert 1 offers 11:00 to 12:00, expert 2 offers 10:00 to 13:00, and user 7
holds a pending booking of 11:00 to 12:00 with expert 1. -/
def storeWithInnerBooking : Store :=
  run (emptyStore [expertOne, expertTwo])
    [.createAvailableSlot 1 slotElevenToTwelve 0,
     .createAvailableSlot 2 slotTenToThirteen 0,
     .createBooking 7 (bookElevenToTwelve 1)]

/-- The store `storeWithInnerBooking` after expert 1 confirmed booking 1 and the
consultation was marked completed. -/
def storeWithCompletedBooking : Store :=
  run storeWithInnerBooking [.updateBookingStatus 1 confirmed, .updateBookingStatus 1 completed]

/-- Expert 1 publishes 11:00 to 12:00 and then 10:00 to 13:00; user 7 books the
first interval and user 8 the second. -/
def doubleBookingOps : List Op :=
  [.createAvailableSlot 1 slotElevenToTwelve 0,
   .createAvailableSlot 1 slotTenToThirteen 0,
   .createBooking 7 (bookElevenToTwelve 1),
   .createBooking 8 (bookTenToThirteen 1)]

/-- Expert 1 publishes 11:00 to 12:00; user 7 books it and cancels at time 0; user 8
books the freed slot; then booking 1 is set to `confirmed` again. -/
def reopenOps : List Op :=
  [.createAvailableSlot 1 slotElevenToTwelve 0,
   .createBooking 7 (bookElevenToTwelve 1),
   .cancelBooking 1 7 "" 0,
   .createBooking 8 (bookElevenToTwelve 1),
   .updateBookingStatus 1 confirmed]

/-- Expert 1 publishes 11:00 to 12:00 and 12:00 to 13:00; user 7 books the first
and user 8 the second slot; expert 1 confirms booking 1. -/
def backToBackOps : List Op :=
  [.createAvailableSlot 1 slotElevenToTwelve 0,
   .createAvailableSlot 1 { StartTime := 43200, EndTime := 46800 } 0,
   .createBooking 7 (bookElevenToTwelve 1),
   .createBooking 8 { ExpertID := 1, StartTime := 43200, EndTime := 46800, Notes := "",
                      Format := "online" },
   .updateBookingStatus 1 confirmed]


/-! ## Reading the slot cache (`ExpertService.GetAvailableSlots`) -/

/-- The Redis command `GET available_slots:<expertID>` at time `now`: the value of
the key, unless the key is missing or its time-to-live has run out. -/
def cacheGet (cache : List CacheEntry) (expertID : Nat) (now : Int) :
    Option (List AvailableSlot) :=
  match cache.find? (fun c => c.expertID == expertID) with
  | none => none
  | some c => if now < c.expiresAt then some c.slots else none

namespace ExpertService

/-- The method `ExpertService.GetAvailableSlots`: the cached list when the key is
there, else the result of the database query, which is then cached for one hour.
Returns the list and the store after the call. -/
def GetAvailableSlots (s : Store) (expertID : Nat) (now : Int) :
    List AvailableSlot × Store :=
  match cacheGet s.cache expertID now with
  | some slots => (slots, s)
  | none =>
    let slots := queryFreeSlots s expertID now
    let entry : CacheEntry := { expertID := expertID, slots := slots, expiresAt := now + hour }
    (slots, { s with cache := cacheSet s.cache entry })

end ExpertService

/-! ## Notifications and the worker passes -/

/-- The Go duration `time.Minute`, in seconds. -/
def minute : Int := 60

/-- Thirty days in seconds, the shift of `AddDate(0, 0, -30)` when no change of
the clock's offset falls in between. -/
def thirtyDays : Int := 30 * 24 * hour

/-- The title of both reminder records. -/
def reminderTitle : String := "Consultation Reminder"

/-- The type column of both reminder records. -/
def reminderType : String := "reminder"

/-- The message `fmt.Sprintf("Your consultation with %s is starting in 1 hour", name)`. -/
def reminderMessage (name : String) : String :=
  "Your consultation with " ++ name ++ " is starting in 1 hour"

/-- The Go zero value of `User`, left in an association whose row is missing. -/
def zeroUser : User := { ID := 0, Email := "", Name := "" }

/-- The clause `Preload("User")` and `Preload("Expert.User")`: the user row with
that key, or the zero value. -/
def preloadUser (s : Store) (id : Nat) : User :=
  (s.users.find? (fun u => u.ID == id)).getD zeroUser

/-- The clause `Preload("Expert")`: the expert row with that key, or the zero value. -/
def preloadExpert (s : Store) (id : Nat) : Expert :=
  (firstExpert s id).getD unloadedExpert

namespace NotificationService

/-- The method `NotificationService.CreateNotification`; `now` is the instant gorm
writes to `created_at`. The insert is taken to succeed. -/
def CreateNotification (s : Store) (userID : Nat) (title message notificationType : String)
    (now : Int) : Store :=
  let notification : Notification :=
    { ID := s.nextNotificationID, UserID := userID, Title := title, Message := message,
      NotificationType := notificationType, IsRead := false, CreatedAt := now,
      DeletedAt := none }
  { s with
    notifications := s.notifications ++ [notification],
    nextNotificationID := s.nextNotificationID + 1 }

end NotificationService

namespace Worker

/-- The query of `processReminders` at time `now`: `start_time BETWEEN ? AND ? AND
status = 'confirmed'` with the bounds `now + 60 min` and `now + 70 min`; the SQL
operator `BETWEEN` includes both bounds. -/
def reminderQuery (s : Store) (now : Int) : List Booking :=
  let reminderTime := now + 60 * minute
  s.bookings.filter (fun b =>
    decide (reminderTime ≤ b.StartTime) && decide (b.StartTime ≤ reminderTime + 10 * minute) &&
      b.Status == confirmed)

/-- One iteration of the loop of `processReminders` for the selected row `booking`.
The state carries the store and the ids of the bookings whose mail failed (the
lines written to the log); `emailOk` tells whether `SendReminder` succeeds. -/
def remindOne (emailOk : Booking → Bool) (now : Int) (st : Store × List Nat)
    (booking : Booking) : Store × List Nat :=
  let user := preloadUser st.1 booking.UserID
  let expert := preloadExpert st.1 booking.ExpertID
  let expertUser := preloadUser st.1 expert.UserID
  let failed := if emailOk booking then st.2 else st.2 ++ [booking.ID]
  let s₁ := NotificationService.CreateNotification st.1 booking.UserID reminderTitle
    (reminderMessage expertUser.Name) reminderType now
  let s₂ := NotificationService.CreateNotification s₁ expert.UserID reminderTitle
    (reminderMessage user.Name) reminderType now
  (s₂, failed)

/-- The method `Worker.processReminders`; `now` is the value of `time.Now()`.
Returns the store after the pass and the ids of the bookings whose mail failed. -/
def processReminders (s : Store) (now : Int) (emailOk : Booking → Bool) : Store × List Nat :=
  (reminderQuery s now).foldl (remindOne emailOk now) (s, [])

/-- The method `Worker.cleanupOldNotifications`: a soft delete of the visible rows
with `created_at < now - 30 days`. Returns the store and `RowsAffected`. -/
def cleanupOldNotifications (s : Store) (now : Int) : Store × Nat :=
  let thirtyDaysAgo := now - thirtyDays
  let hit := fun (n : Notification) => decide (n.CreatedAt < thirtyDaysAgo) && n.DeletedAt.isNone
  ({ s with
     notifications := s.notifications.map (fun n =>
       if hit n then { n with DeletedAt := some now } else n) },
   (s.notifications.filter hit).length)

/-- One tick of `Worker.Start`: the three passes in the order of the source, each
with its own clock reading. -/
def tick (s : Store) (nowReminders nowExpiry nowCleanup : Int) (emailOk : Booking → Bool) :
    Store :=
  let s₁ := (processReminders s nowReminders emailOk).1
  let s₂ := processExpiredBookings s₁ nowExpiry
  (cleanupOldNotifications s₂ nowCleanup).1

end Worker

/-! ## More concrete scenarios -/

/-- A slot request that ends before it starts: 12:00 to 11:00. -/
def slotTwelveToEleven : CreateSlotRequest := { StartTime := 43200, EndTime := 39600 }

/-- A booking request with expert 1 that starts and ends at 11:30. -/
def bookEmptyInterval : CreateBookingRequest :=
  { ExpertID := 1, StartTime := 41400, EndTime := 41400, Notes := "", Format := "online" }

/-- Expert 1 has published 11:00 to 12:00 (slot 1) and then 10:00 to 13:00 (slot 2). -/
def storeWithNestedSlots : Store :=
  run (emptyStore [expertOne])
    [.createAvailableSlot 1 slotElevenToTwelve 0, .createAvailableSlot 1 slotTenToThirteen 0]

/-- The two records one iteration of the loop of `processReminders` appends for the
selected row `b`, the first with id `nextID`: one for the booking's user, naming the
expert, and one for the user account of the booking's expert, naming the user. -/
def reminderPair (s : Store) (now : Int) (nextID : Nat) (b : Booking) : List Notification :=
  [{ ID := nextID, UserID := b.UserID, Title := reminderTitle,
     Message := reminderMessage (preloadUser s (preloadExpert s b.ExpertID).UserID).Name,
     NotificationType := reminderType, IsRead := false, CreatedAt := now, DeletedAt := none },
   { ID := nextID + 1, UserID := (preloadExpert s b.ExpertID).UserID, Title := reminderTitle,
     Message := reminderMessage (preloadUser s b.UserID).Name,
     NotificationType := reminderType, IsRead := false, CreatedAt := now, DeletedAt := none }]

/-- The records the loop of `processReminders` appends for the selected rows, in
the order of the loop, with consecutive ids from `nextID` on. -/
def reminderRecords (s : Store) (now : Int) : Nat → List Booking → List Notification
  | _, [] => []
  | nextID, b :: rest => reminderPair s now nextID b ++ reminderRecords s now (nextID + 2) rest

/-- The number of reminder records addressed to a user in the notifications table. -/
def reminderCount (s : Store) (userID : Nat) : Nat :=
  (s.notifications.filter (fun n => n.UserID == userID && n.NotificationType == reminderType)).length

/-- User 7, a client. -/
def userSeven : User := { ID := 7, Email := "uma@example.org", Name := "Uma" }

/-- User 20, the account of expert 1. -/
def userTwenty : User := { ID := 20, Email := "eve@example.org", Name := "Eve" }

/-- Expert 1 offers 11:00 to 12:00; user 7 has booked it and expert 1 has confirmed. -/
def storeWithConfirmedBooking : Store :=
  run { users := [userSeven, userTwenty], experts := [expertOne] }
    [.createAvailableSlot 1 slotElevenToTwelve 0,
     .createBooking 7 (bookElevenToTwelve 1),
     .updateBookingStatus 1 confirmed]

/-! ## Slots and the bookings that hold them -/

/-- The booking holds a slot: its status is `pending` or `confirmed`. -/
def live (b : Booking) : Prop :=
  b.Status = pending ∨ b.Status = confirmed

instance (b : Booking) : Decidable (live b) := by
  unfold live; infer_instance

/-- The booking `b` is a booking of the slot's expert and its interval is contained
in the slot's interval: `slot.start <= b.start` and `slot.end >= b.end`. -/
def slotContains (sl : AvailableSlot) (b : Booking) : Prop :=
  sl.ExpertID = b.ExpertID ∧ sl.StartTime ≤ b.StartTime ∧ sl.EndTime ≥ b.EndTime

instance (sl : AvailableSlot) (b : Booking) : Decidable (slotContains sl b) := by
  unfold slotContains; infer_instance

/-- Each slot is held by at most one booking, in the words of the specification: for
each slot, at most one pending or confirmed booking of the slot's expert has its
interval contained in the slot's interval. -/
def SlotHeldOnce (s : Store) : Prop :=
  ∀ sl ∈ s.slots, ∀ a ∈ s.bookings, ∀ b ∈ s.bookings,
    live a → live b → slotContains sl a → slotContains sl b → a = b

instance (s : Store) : Decidable (SlotHeldOnce s) := by
  unfold SlotHeldOnce; infer_instance

/-- The calls under which a slot is held at most once: a slot request has start
before end and strictly encloses no slot of the same expert; a booking request has
start before end; `CancelBooking` is called for a booking that is pending or
confirmed; and the status is not set by hand. -/
def Op.tidy (s : Store) : Op → Prop
  | .createAvailableSlot expertID req _ =>
    req.StartTime < req.EndTime ∧
      ∀ sl ∈ s.slots, sl.ExpertID = expertID →
        ¬ (req.StartTime < sl.StartTime ∧ sl.EndTime < req.EndTime)
  | .createBooking _ req => req.StartTime < req.EndTime
  | .cancelBooking bookingID _ _ _ => ∀ b ∈ s.bookings, b.ID = bookingID → live b
  | .updateBookingStatus _ _ => False
  | .expiryPass _ => True

instance (s : Store) (op : Op) : Decidable (op.tidy s) := by
  cases op <;> unfold Op.tidy <;> infer_instance

/-- A sequence of calls, executed one at a time from `s`, each of them tidy. -/
def tidyRun (s : Store) : List Op → Prop
  | [] => True
  | op :: ops => op.tidy s ∧ tidyRun (step s op) ops

instance decidableTidyRun : (s : Store) → (ops : List Op) → Decidable (tidyRun s ops)
  | _, [] => isTrue trivial
  | s, op :: ops => @instDecidableAnd _ _ _ (decidableTidyRun (step s op) ops)

/-- The part of the inductive invariant that concerns slots: slot ids are below the
counter and unique, slots of one expert do not overlap, every holding booking has
start before end and lies in a slot, a free slot contains no holding booking, and a
slot contains at most one. -/
def SlotCore (slots : List AvailableSlot) (bookings : List Booking) (nextSlotID : Nat) : Prop :=
  (∀ sl ∈ slots, sl.ID < nextSlotID) ∧
  (∀ a ∈ slots, ∀ b ∈ slots, a.ID = b.ID → a = b) ∧
  (∀ a ∈ slots, ∀ b ∈ slots, a.ID ≠ b.ID → a.ExpertID = b.ExpertID →
    ¬ specOverlap a.StartTime a.EndTime b.StartTime b.EndTime) ∧
  (∀ b ∈ bookings, live b → b.StartTime < b.EndTime) ∧
  (∀ b ∈ bookings, live b → ∃ sl ∈ slots, slotContains sl b) ∧
  (∀ sl ∈ slots, sl.IsBooked = false → ∀ b ∈ bookings, live b → ¬ slotContains sl b) ∧
  (∀ sl ∈ slots, ∀ a ∈ bookings, ∀ b ∈ bookings,
    live a → live b → slotContains sl a → slotContains sl b → a = b)

/-- The inductive invariant behind the single holder of a slot. -/
def SlotInv (s : Store) : Prop :=
  BookingsInv s ∧ SlotCore s.slots s.bookings s.nextSlotID

/-- The slot request 10:00 to 12:00. -/
def slotTenToTwelve : CreateSlotRequest := { StartTime := 36000, EndTime := 43200 }

/-- A booking request for 10:00 to 11:00 with the given expert. -/
def bookTenToEleven (expertID : Nat) : CreateBookingRequest :=
  { ExpertID := expertID, StartTime := 36000, EndTime := 39600, Notes := "", Format := "online" }

/-- Expert 1 publishes 10:00 to 12:00; user 8 books 11:00 to 12:00 and cancels; user 7
books 10:00 to 11:00; user 8 cancels the cancelled booking once more, which frees the
slot again; user 9 books 11:00 to 12:00. -/
def cancelTwiceOps : List Op :=
  [.createAvailableSlot 1 slotTenToTwelve 0,
   .createBooking 8 (bookElevenToTwelve 1),
   .cancelBooking 1 8 "" 0,
   .createBooking 7 (bookTenToEleven 1),
   .cancelBooking 1 8 "" 0,
   .createBooking 9 (bookElevenToTwelve 1)]

/-- Expert 1 publishes 10:00 to 12:00 and 12:00 to 14:00; user 7 books 10:00 to 11:00
and user 8 books the empty interval 12:00 to 12:00, which lies in both slots. -/
def emptyIntervalOps : List Op :=
  [.createAvailableSlot 1 slotTenToTwelve 0,
   .createAvailableSlot 1 { StartTime := 43200, EndTime := 50400 } 0,
   .createBooking 7 (bookTenToEleven 1),
   .createBooking 8 { ExpertID := 1, StartTime := 43200, EndTime := 43200, Notes := "",
                      Format := "online" }]

/-- Expert 1 publishes 10:00 to 12:00; user 7 books 10:00 to 11:00 and cancels at
time 0; user 8 books 11:00 to 12:00; after 12:00 the expiry pass runs. -/
def tidyOps : List Op :=
  [.createAvailableSlot 1 slotTenToTwelve 0,
   .createBooking 7 (bookTenToEleven 1),
   .cancelBooking 1 7 "" 0,
   .createBooking 8 (bookElevenToTwelve 1),
   .createBooking 9 (bookTenToEleven 1),
   .expiryPass 50000]

/-! ## The notification ledger -/

/-- The notifications every query of the service sees: gorm adds `deleted_at IS NULL`
to each query on a model with a `DeletedAt` column. -/
def visibleNotifications (s : Store) : List Notification :=
  s.notifications.filter (fun n => n.DeletedAt.isNone)

/-- A ledger with four records of user 7, written at day 0, at day 10 sharp, at day
10 plus one second and at day 20 (864000 seconds are ten days). -/
def storeWithNotifications : Store :=
  NotificationService.CreateNotification
    (NotificationService.CreateNotification
      (NotificationService.CreateNotification
        (NotificationService.CreateNotification (emptyStore []) 7 reminderTitle
          (reminderMessage "Eve") reminderType 0)
        7 reminderTitle (reminderMessage "Eve") reminderType 864000)
      7 reminderTitle (reminderMessage "Eve") reminderType 864001)
    7 reminderTitle (reminderMessage "Eve") reminderType 1728000

/-! ## Auxiliary facts -/

/-- A count query is positive exactly when some row satisfies the condition. -/
theorem count_pos_iff {α : Type} (p : α → Bool) (l : List α) :
    (l.filter p).length > 0 ↔ ∃ x ∈ l, p x = true := by
  simp [List.length_pos, List.filter_eq_nil_iff]

/-- Whenever the interval condition of the queries holds for a request with
`reqStart < reqEnd`, the two intervals overlap in the sense of the specification. -/
theorem conflictCondition_overlap {a b c d : Int} (hcd : c < d)
    (h : conflictCondition a b c d = true) : specOverlap a b c d := by
  simp only [conflictCondition, Bool.or_eq_true, Bool.and_eq_true, decide_eq_true_eq] at h
  unfold specOverlap
  omega

/-- An expert row with the requested key is found by `firstExpert` as soon as one exists. -/
theorem firstExpert_isSome {s : Store} {id : Nat} (h : ∃ e ∈ s.experts, e.ID = id) :
    ∃ e, firstExpert s id = some e := by
  obtain ⟨e, he, hid⟩ := h
  have : (s.experts.find? (fun e => e.ID == id)).isSome = true := by
    rw [List.find?_isSome]
    exact ⟨e, he, by simp [hid]⟩
  exact Option.isSome_iff_exists.mp this

/-- A slot request that meets no conflicting slot of an existing expert is stored. -/
theorem createAvailableSlot_ok {s : Store} {E : Nat} {J : CreateSlotRequest} (now : Int)
    (hE : ∃ e ∈ s.experts, e.ID = E)
    (hfree : ∀ sl ∈ s.slots, sl.ExpertID = E →
      conflictCondition sl.StartTime sl.EndTime J.StartTime J.EndTime = false) :
    ∃ s', ExpertService.CreateAvailableSlot s E J now = .ok s' ∧
      s'.experts = s.experts ∧ s'.bookings = s.bookings ∧
      s'.slots = s.slots ++ [{ ID := s.nextSlotID, ExpertID := E, StartTime := J.StartTime,
                               EndTime := J.EndTime, IsBooked := false }] := by
  obtain ⟨e, he⟩ := firstExpert_isSome hE
  have hcount : ¬ (s.slots.filter (fun sl => sl.ExpertID == E &&
      conflictCondition sl.StartTime sl.EndTime J.StartTime J.EndTime)).length > 0 := by
    rw [count_pos_iff]
    rintro ⟨sl, hsl, hp⟩
    simp only [Bool.and_eq_true, beq_iff_eq] at hp
    rw [hfree sl hsl hp.1] at hp
    exact absurd hp.2 (by simp)
  refine ⟨ExpertService.updateAvailableSlotsCache
    { s with
      slots := s.slots ++ [⟨s.nextSlotID, E, J.StartTime, J.EndTime, false⟩],
      nextSlotID := s.nextSlotID + 1 } E now, ?_, rfl, rfl, rfl⟩
  unfold ExpertService.CreateAvailableSlot
  simp only [he, hcount, if_false]

/-- A slot request that meets a conflicting slot of an existing expert is refused. -/
theorem createAvailableSlot_conflict {s : Store} {E : Nat} {J : CreateSlotRequest} (now : Int)
    (hE : ∃ e ∈ s.experts, e.ID = E)
    (hhit : ∃ sl ∈ s.slots, sl.ExpertID = E ∧
      conflictCondition sl.StartTime sl.EndTime J.StartTime J.EndTime = true) :
    ExpertService.CreateAvailableSlot s E J now = .error .slotConflict := by
  obtain ⟨e, he⟩ := firstExpert_isSome hE
  have hcount : (s.slots.filter (fun sl => sl.ExpertID == E &&
      conflictCondition sl.StartTime sl.EndTime J.StartTime J.EndTime)).length > 0 := by
    rw [count_pos_iff]
    obtain ⟨sl, hsl, hE', hc⟩ := hhit
    exact ⟨sl, hsl, by simp [hE', hc]⟩
  unfold ExpertService.CreateAvailableSlot
  simp only [he, hcount, if_true]

/-! ## Conflict checks at creation -/

/-- C2, evaluated at a failing input: user 7 holds a pending booking of 11:00 to
12:00 (with expert 1) and asks for 10:00 to 13:00 with expert 2. The two intervals
overlap, yet the user-conflict query counts no row, because the held interval lies
strictly inside the requested one: `CreateBooking` succeeds and a second booking of
user 7 is stored. -/
theorem createBooking_misses_enclosed_user_booking :
    storeWithInnerBooking.bookings =
      [{ ID := 1, UserID := 7, ExpertID := 1, StartTime := 39600, EndTime := 43200,
         Status := pending, Notes := "", Format := "online", CancelReason := "" }] ∧
    specOverlap 39600 43200 (bookTenToThirteen 2).StartTime (bookTenToThirteen 2).EndTime ∧
    (BookingService.CreateBooking storeWithInnerBooking 7 (bookTenToThirteen 2)).map Prod.fst =
      .ok { ID := 2, UserID := 7, ExpertID := 2, StartTime := 36000, EndTime := 46800,
            Status := pending, Notes := "", Format := "online", CancelReason := "" } ∧
    (step storeWithInnerBooking (.createBooking 7 (bookTenToThirteen 2))).bookings.map
      (fun b => (b.UserID, b.StartTime, b.EndTime, b.Status)) =
      [(7, 39600, 43200, pending), (7, 36000, 46800, pending)] := by
  decide

/-- C3, evaluated at a failing input: expert 1 has the slot 11:00 to 12:00 and
publishes 10:00 to 13:00. The two intervals overlap, yet the conflict query counts
no row, because the stored interval lies strictly inside the new one:
`CreateAvailableSlot` succeeds and the expert ends with two overlapping slots. -/
theorem createAvailableSlot_misses_enclosed_slot :
    storeWithInnerSlot.slots =
      [{ ID := 1, ExpertID := 1, StartTime := 39600, EndTime := 43200, IsBooked := false }] ∧
    specOverlap 39600 43200 slotTenToThirteen.StartTime slotTenToThirteen.EndTime ∧
    (ExpertService.CreateAvailableSlot storeWithInnerSlot 1 slotTenToThirteen 0).map Store.slots =
      .ok [{ ID := 1, ExpertID := 1, StartTime := 39600, EndTime := 43200, IsBooked := false },
           { ID := 2, ExpertID := 1, StartTime := 36000, EndTime := 46800, IsBooked := false }] := by
  decide

/-- C4: for an existing expert `E` and an interval `I` with start before end, a
second `CreateAvailableSlot(E, I)` right after a successful one fails with the
conflict error; and `CreateAvailableSlot(E, J)` succeeds, appending the free slot
`J`, for every `J` with start before end that overlaps none of the slots of `E`,
in particular for every `J` that lies entirely before or after each of them, a
shared endpoint allowed. -/
theorem createAvailableSlot_identical_then_disjoint (s : Store) (E : Nat)
    (I : CreateSlotRequest) (hE : ∃ e ∈ s.experts, e.ID = E)
    (hI : I.StartTime < I.EndTime) :
    (∀ (s' : Store) (now now' : Int),
      ExpertService.CreateAvailableSlot s E I now = .ok s' →
        ExpertService.CreateAvailableSlot s' E I now' = .error .slotConflict) ∧
    (∀ (J : CreateSlotRequest) (now : Int), J.StartTime < J.EndTime →
      (∀ sl ∈ s.slots, sl.ExpertID = E →
        ¬ specOverlap sl.StartTime sl.EndTime J.StartTime J.EndTime) →
      ∃ s', ExpertService.CreateAvailableSlot s E J now = .ok s' ∧
        s'.slots = s.slots ++ [{ ID := s.nextSlotID, ExpertID := E, StartTime := J.StartTime,
                                 EndTime := J.EndTime, IsBooked := false }]) ∧
    (∀ (J : CreateSlotRequest) (now : Int), J.StartTime < J.EndTime →
      (∀ sl ∈ s.slots, sl.ExpertID = E →
        sl.EndTime ≤ J.StartTime ∨ J.EndTime ≤ sl.StartTime) →
      ∃ s', ExpertService.CreateAvailableSlot s E J now = .ok s' ∧
        s'.slots = s.slots ++ [{ ID := s.nextSlotID, ExpertID := E, StartTime := J.StartTime,
                                 EndTime := J.EndTime, IsBooked := false }]) := by
  have hdisj : ∀ (J : CreateSlotRequest) (now : Int), J.StartTime < J.EndTime →
      (∀ sl ∈ s.slots, sl.ExpertID = E →
        ¬ specOverlap sl.StartTime sl.EndTime J.StartTime J.EndTime) →
      ∃ s', ExpertService.CreateAvailableSlot s E J now = .ok s' ∧
        s'.slots = s.slots ++ [{ ID := s.nextSlotID, ExpertID := E, StartTime := J.StartTime,
                                 EndTime := J.EndTime, IsBooked := false }] := by
    intro J now hJ hfree
    have hno : ∀ sl ∈ s.slots, sl.ExpertID = E →
        conflictCondition sl.StartTime sl.EndTime J.StartTime J.EndTime = false := by
      intro sl hsl hslE
      cases hc : conflictCondition sl.StartTime sl.EndTime J.StartTime J.EndTime with
      | false => rfl
      | true => exact absurd (conflictCondition_overlap hJ hc) (hfree sl hsl hslE)
    obtain ⟨s', hok, _, _, hslots⟩ := createAvailableSlot_ok now hE hno
    exact ⟨s', hok, hslots⟩
  refine ⟨?_, hdisj, ?_⟩
  · intro s' now now' hok
    have hid : ∀ sl ∈ s.slots, sl.ExpertID = E →
        conflictCondition sl.StartTime sl.EndTime I.StartTime I.EndTime = false := by
      intro sl hsl hslE
      cases hc : conflictCondition sl.StartTime sl.EndTime I.StartTime I.EndTime with
      | false => rfl
      | true =>
        exfalso
        rw [createAvailableSlot_conflict now hE ⟨sl, hsl, hslE, hc⟩] at hok
        cases hok
    obtain ⟨s₁, hok₁, hexp, _, hslots⟩ := createAvailableSlot_ok now hE hid
    rw [hok₁] at hok
    cases hok
    apply createAvailableSlot_conflict now'
    · rw [hexp]; exact hE
    · refine ⟨⟨s.nextSlotID, E, I.StartTime, I.EndTime, false⟩, ?_, rfl, ?_⟩
      · rw [hslots]; simp
      · simp only [conflictCondition, Bool.or_eq_true, Bool.and_eq_true, decide_eq_true_eq]
        left
        exact ⟨le_refl _, hI⟩
  · intro J now hJ hsep
    apply hdisj J now hJ
    intro sl hsl hslE hov
    unfold specOverlap at hov
    rcases hsep sl hsl hslE with h | h <;> omega

/-- C4 at a concrete input: expert 1 holds 11:00 to 12:00; republishing the same
interval fails, and 12:00 to 13:00, which touches it at 12:00, is accepted. -/
theorem createAvailableSlot_identical_then_disjoint_witness :
    (∀ (s' : Store) (now now' : Int),
      ExpertService.CreateAvailableSlot (emptyStore [expertOne]) 1 slotElevenToTwelve now = .ok s' →
        ExpertService.CreateAvailableSlot s' 1 slotElevenToTwelve now' = .error .slotConflict) ∧
    (∃ s', ExpertService.CreateAvailableSlot storeWithInnerSlot 1
        { StartTime := 43200, EndTime := 46800 } 0 = .ok s' ∧
      s'.slots = storeWithInnerSlot.slots ++
        [{ ID := 2, ExpertID := 1, StartTime := 43200, EndTime := 46800, IsBooked := false }]) :=
  ⟨(createAvailableSlot_identical_then_disjoint (emptyStore [expertOne]) 1 slotElevenToTwelve
      ⟨expertOne, by decide, rfl⟩ (by decide)).1,
   (createAvailableSlot_identical_then_disjoint storeWithInnerSlot 1 slotElevenToTwelve
      ⟨expertOne, by decide, rfl⟩ (by decide)).2.2 { StartTime := 43200, EndTime := 46800 } 0
      (by decide) (by decide)⟩

/-! ## Cancellation: time window and authorization -/

/-- What `CancelBooking` returns once the booking row is found: the outcome of the
authorization check, then of the time check, then the two updates. -/
theorem cancelBooking_of_found {s : Store} {bookingID : Nat} {b : Booking}
    (hb : firstBooking s bookingID = some b) (userID : Nat) (reason : String) (now : Int) :
    BookingService.CancelBooking s bookingID userID reason now =
      if b.UserID != userID && unloadedExpert.UserID != userID then .error .unauthorized
      else if decide (now + hour > b.StartTime) then .error .lateCancellation
      else .ok { s with
        bookings := setCancelled s.bookings b.ID reason,
        slots := freeSlots s.slots b.ExpertID b.StartTime b.EndTime } := by
  unfold BookingService.CancelBooking
  rw [hb]

/-- The authorization check of `CancelBooking` refuses exactly the actors that are
neither the booking's user nor user 0, the `UserID` of the unloaded association. -/
theorem cancelBooking_unauthorized_iff {s : Store} {bookingID : Nat} {b : Booking}
    (hb : firstBooking s bookingID = some b) (actor : Nat) (reason : String) (now : Int) :
    BookingService.CancelBooking s bookingID actor reason now = .error .unauthorized ↔
      (b.UserID ≠ actor ∧ actor ≠ 0) := by
  rw [cancelBooking_of_found hb]
  have hcond : (b.UserID != actor && unloadedExpert.UserID != actor) = true ↔
      (b.UserID ≠ actor ∧ actor ≠ 0) := by
    simp only [unloadedExpert, Bool.and_eq_true, bne_iff_ne, ne_eq]
    constructor
    · rintro ⟨h₁, h₂⟩
      exact ⟨h₁, fun h => h₂ h.symm⟩
    · rintro ⟨h₁, h₂⟩
      exact ⟨h₁, fun h => h₂ h.symm⟩
  rw [← hcond]
  by_cases hc : (b.UserID != actor && unloadedExpert.UserID != actor) = true
  · simp only [hc, if_true]
  · rw [if_neg hc]
    constructor
    · intro h
      split at h <;> cases h
    · intro h
      exact absurd h hc

/-- The time window of `CancelBooking` for the actors that pass its authorization
check, the booking's user among them: for an existing booking the call at time `now`
fails with the late-cancellation error exactly when `now + 1 hour > booking.start`,
and succeeds otherwise. So it fails when the start is one hour minus one second away,
and succeeds when the start is one hour plus one second away or exactly one hour
away. The owning expert does not pass the check. -/
theorem cancelBooking_late_iff (s : Store) (bookingID actor : Nat) (reason : String)
    (now : Int) (b : Booking) (hb : firstBooking s bookingID = some b)
    (hauth : BookingService.CancelBooking s bookingID actor reason now ≠ .error .unauthorized) :
    (BookingService.CancelBooking s bookingID actor reason now = .error .lateCancellation ↔
      now + hour > b.StartTime) ∧
    (¬ now + hour > b.StartTime →
      ∃ s', BookingService.CancelBooking s bookingID actor reason now = .ok s') ∧
    (b.StartTime = now + hour - 1 →
      BookingService.CancelBooking s bookingID actor reason now = .error .lateCancellation) ∧
    (b.StartTime = now + hour + 1 →
      ∃ s', BookingService.CancelBooking s bookingID actor reason now = .ok s') ∧
    (b.StartTime = now + hour →
      ∃ s', BookingService.CancelBooking s bookingID actor reason now = .ok s') := by
  rw [cancelBooking_of_found hb] at hauth ⊢
  by_cases hA : (b.UserID != actor && unloadedExpert.UserID != actor) = true
  · rw [if_pos hA] at hauth
    exact absurd rfl hauth
  · rw [if_neg hA]
    have key : ∀ (h : ¬ now + hour > b.StartTime),
        ∃ s', (if decide (now + hour > b.StartTime) = true then
            (.error .lateCancellation : Except Error Store)
          else .ok { s with
            bookings := setCancelled s.bookings b.ID reason,
            slots := freeSlots s.slots b.ExpertID b.StartTime b.EndTime }) = .ok s' := by
      intro h
      exact ⟨_, by rw [if_neg (by simpa using h)]⟩
    refine ⟨?_, key, ?_, ?_, ?_⟩
    · by_cases hlate : now + hour > b.StartTime
      · simp [hlate]
      · simp [hlate]
    · intro hstart
      have hlate : now + hour > b.StartTime := by omega
      simp [hlate]
    · intro hstart
      exact key (by omega)
    · intro hstart
      exact key (by omega)

/-- The time window at a concrete input: user 7 cancels the own booking of 11:00 to
12:00 at 10:00:01, one hour minus one second before the start, and is refused. -/
theorem cancelBooking_late_iff_witness :
    BookingService.CancelBooking storeWithInnerBooking 1 7 "" 36001 = .error .lateCancellation :=
  (cancelBooking_late_iff storeWithInnerBooking 1 7 "" 36001
    { ID := 1, UserID := 7, ExpertID := 1, StartTime := 39600, EndTime := 43200,
      Status := pending, Notes := "", Format := "online", CancelReason := "" }
    (by decide) (by decide)).2.2.1 (by decide)

/-- C6, evaluated at a failing input: booking 1 of user 7 is with expert 1, whose
user account is user 20, and starts at 11:00. User 20, the owning expert, is an actor
allowed to cancel it. At 9:59:59, one hour plus one second before the start, and at
10:00:00, exactly one hour before, the call of user 20 does not succeed but returns
the authorization error, while the same call of user 7 succeeds; at 10:00:01, one
hour minus one second before, the call of user 20 fails with the authorization error
and not with the late-cancellation error. -/
theorem cancelBooking_window_closed_to_expert :
    firstBooking storeWithInnerBooking 1 =
      some { ID := 1, UserID := 7, ExpertID := 1, StartTime := 39600, EndTime := 43200,
             Status := pending, Notes := "", Format := "online", CancelReason := "" } ∧
    firstExpert storeWithInnerBooking 1 = some { ID := 1, UserID := 20, IsAvailable := true } ∧
    (39600 : Int) = 35999 + hour + 1 ∧ (39600 : Int) = 36000 + hour ∧
    (39600 : Int) = 36001 + hour - 1 ∧
    BookingService.CancelBooking storeWithInnerBooking 1 20 "" 35999 = .error .unauthorized ∧
    BookingService.CancelBooking storeWithInnerBooking 1 20 "" 36000 = .error .unauthorized ∧
    BookingService.CancelBooking storeWithInnerBooking 1 20 "" 36001 = .error .unauthorized ∧
    BookingService.CancelBooking storeWithInnerBooking 1 20 "" 36001 ≠ .error .lateCancellation ∧
    (BookingService.CancelBooking storeWithInnerBooking 1 7 "" 35999).map
      (fun s => s.bookings.map (fun b => (b.ID, b.Status))) = .ok [(1, cancelled)] ∧
    (BookingService.CancelBooking storeWithInnerBooking 1 7 "" 36000).map
      (fun s => s.bookings.map (fun b => (b.ID, b.Status))) = .ok [(1, cancelled)] := by
  decide

/-- C7, evaluated at a failing input: booking 1 of user 7 is with expert 1, whose
user account is user 20, and starts at 11:00. At time 0 user 20 asks to cancel it
and is refused as unauthorized: `CancelBooking` reads `booking.Expert.UserID` from a
row loaded without the `Expert` association, which is 0 and not 20. -/
theorem cancelBooking_refuses_owning_expert :
    firstBooking storeWithInnerBooking 1 =
      some { ID := 1, UserID := 7, ExpertID := 1, StartTime := 39600, EndTime := 43200,
             Status := pending, Notes := "", Format := "online", CancelReason := "" } ∧
    firstExpert storeWithInnerBooking 1 = some { ID := 1, UserID := 20, IsAvailable := true } ∧
    ¬ (0 + hour > (39600 : Int)) ∧
    BookingService.CancelBooking storeWithInnerBooking 1 20 "" 0 = .error .unauthorized := by
  decide

/-! ## Status updates -/

/-- C9 as stated fails: `pending -> completed` is no edge of the state machine, yet
both `UpdateBookingStatus` methods accept it and booking 1 ends `completed`. -/
theorem updateBookingStatus_accepts_illegal_edge :
    specEdge pending completed = false ∧
    storeWithInnerBooking.bookings.map (fun b => (b.ID, b.Status)) = [(1, pending)] ∧
    (ExpertService.UpdateBookingStatus storeWithInnerBooking 1 completed).map
      (fun s => s.bookings.map (fun b => (b.ID, b.Status))) = .ok [(1, completed)] ∧
    (BookingService.UpdateBookingStatus storeWithInnerBooking 1 completed).map
      (fun s => s.bookings.map (fun b => (b.ID, b.Status))) = .ok [(1, completed)] := by
  decide

/-- C9 as amended: both `UpdateBookingStatus` methods succeed for every store, id and
status string, whatever the current status is; afterwards every booking row with that
id carries the new status and no other change, and every other row is unchanged, in
its place. -/
theorem updateBookingStatus_unconditional (s : Store) (bookingID : Nat) (status : String) :
    (∃ s', ExpertService.UpdateBookingStatus s bookingID status = .ok s' ∧
      BookingService.UpdateBookingStatus s bookingID status = .ok s' ∧
      s'.slots = s.slots ∧
      s'.bookings.length = s.bookings.length ∧
      ∀ (i : Nat) (b : Booking), s.bookings[i]? = some b →
        (b.ID = bookingID → s'.bookings[i]? = some { b with Status := status }) ∧
        (b.ID ≠ bookingID → s'.bookings[i]? = some b)) := by
  refine ⟨{ s with bookings := setStatus s.bookings bookingID status }, rfl, rfl, rfl, ?_, ?_⟩
  · simp [setStatus]
  · intro i b hb
    constructor
    · intro hid
      simp [setStatus, List.getElem?_map, hb, hid]
    · intro hid
      simp [setStatus, List.getElem?_map, hb, hid]

/-! ## Effect of a successful `CreateBooking` -/

/-- Inversion of a successful `CreateBooking`: every check of the method passed and
the result is the store with the new pending row and the matched slot marked. -/
theorem createBooking_ok_inv {s s' : Store} {userID : Nat} {req : CreateBookingRequest}
    {b : Booking} (h : BookingService.CreateBooking s userID req = .ok (b, s')) :
    ∃ expert availableSlot,
      firstExpert s req.ExpertID = some expert ∧ expert.IsAvailable = true ∧
      (∀ x ∈ s.bookings, x.UserID = userID → statusBlocks x.Status = true →
        conflictCondition x.StartTime x.EndTime req.StartTime req.EndTime = false) ∧
      (∀ x ∈ s.bookings, x.ExpertID = req.ExpertID → statusBlocks x.Status = true →
        conflictCondition x.StartTime x.EndTime req.StartTime req.EndTime = false) ∧
      s.slots.find? (fun sl =>
        sl.ExpertID == req.ExpertID && decide (sl.StartTime ≤ req.StartTime) &&
          decide (sl.EndTime ≥ req.EndTime) && sl.IsBooked == false) = some availableSlot ∧
      b = ⟨s.nextBookingID, userID, req.ExpertID, req.StartTime, req.EndTime, pending,
            req.Notes, req.Format, ""⟩ ∧
      s' = { s with
        bookings := s.bookings ++ [b],
        nextBookingID := s.nextBookingID + 1,
        slots := markSlotBooked s.slots availableSlot.ID } := by
  unfold BookingService.CreateBooking at h
  split at h
  · cases h
  · rename_i expert hexp
    split at h
    · cases h
    · rename_i havail
      simp only [] at h
      split at h
      · cases h
      · rename_i huser
        split at h
        · cases h
        · rename_i hexpert
          split at h
          · cases h
          · rename_i availableSlot hslot
            simp only [Except.ok.injEq, Prod.mk.injEq] at h
            obtain ⟨hb, hs⟩ := h
            refine ⟨expert, availableSlot, hexp, by simpa using havail, ?_, ?_, hslot,
              hb.symm, ?_⟩
            · intro x hx hxu hst
              rw [count_pos_iff] at huser
              cases hc : conflictCondition x.StartTime x.EndTime req.StartTime req.EndTime with
              | false => rfl
              | true => exact absurd ⟨x, hx, by simp [hxu, hst, hc]⟩ huser
            · intro x hx hxe hst
              rw [count_pos_iff] at hexpert
              cases hc : conflictCondition x.StartTime x.EndTime req.StartTime req.EndTime with
              | false => rfl
              | true => exact absurd ⟨x, hx, by simp [hxe, hst, hc]⟩ hexpert
            · rw [← hs, ← hb]

/-- With unique slot ids, marking the slot found at one place of the table changes
that place alone. -/
theorem markSlotBooked_split {l₁ l₂ : List AvailableSlot} {slot : AvailableSlot}
    (hids : ((l₁ ++ slot :: l₂).map (fun sl => sl.ID)).Nodup) :
    markSlotBooked (l₁ ++ slot :: l₂) slot.ID = l₁ ++ { slot with IsBooked := true } :: l₂ := by
  have hnd := hids
  rw [List.map_append, List.map_cons, List.nodup_append] at hnd
  obtain ⟨_, hcons, hdisj⟩ := hnd
  rw [List.nodup_cons] at hcons
  have h₁ : ∀ x ∈ l₁, x.ID ≠ slot.ID := by
    intro x hx heq
    exact hdisj (List.mem_map_of_mem (fun sl => sl.ID) hx)
      (by rw [heq]; exact List.mem_cons_self _ _)
  have h₂ : ∀ x ∈ l₂, x.ID ≠ slot.ID := by
    intro x hx heq
    exact hcons.1 (by rw [← heq]; exact List.mem_map_of_mem (fun sl => sl.ID) hx)
  have keep : ∀ l : List AvailableSlot, (∀ x ∈ l, x.ID ≠ slot.ID) →
      l.map (fun sl => if sl.ID == slot.ID then { sl with IsBooked := true } else sl) = l := by
    intro l hl
    calc l.map (fun sl => if sl.ID == slot.ID then { sl with IsBooked := true } else sl)
        = l.map id := List.map_congr_left (fun x hx => by simp [hl x hx])
      _ = l := List.map_id l
  unfold markSlotBooked
  rw [List.map_append, List.map_cons, keep l₁ h₁, keep l₂ h₂]
  simp

/-- C5: whenever `CreateBooking` succeeds on a store whose slot ids are unique, the
expert existed and was available; the bookings table gains exactly one row, the
returned booking, which carries the caller's user id, the requested expert,
start, end, notes and format and the status `pending`; one slot of that expert that
was free and contains the requested interval is now booked; and every other row of
the slots, bookings and experts tables is unchanged. -/
theorem createBooking_success_effect (s s' : Store) (userID : Nat) (req : CreateBookingRequest)
    (b : Booking) (hids : (s.slots.map (fun sl => sl.ID)).Nodup)
    (h : BookingService.CreateBooking s userID req = .ok (b, s')) :
    (∃ e ∈ s.experts, e.ID = req.ExpertID ∧ e.IsAvailable = true) ∧
    b = { ID := s.nextBookingID, UserID := userID, ExpertID := req.ExpertID,
          StartTime := req.StartTime, EndTime := req.EndTime, Status := pending,
          Notes := req.Notes, Format := req.Format, CancelReason := "" } ∧
    s'.bookings = s.bookings ++ [b] ∧
    (∃ slot l₁ l₂, s.slots = l₁ ++ slot :: l₂ ∧
      slot.ExpertID = req.ExpertID ∧ slot.IsBooked = false ∧
      slot.StartTime ≤ req.StartTime ∧ slot.EndTime ≥ req.EndTime ∧
      s'.slots = l₁ ++ { slot with IsBooked := true } :: l₂) ∧
    s'.experts = s.experts := by
  obtain ⟨expert, availableSlot, hexp, havail, _, _, hslot, hb, hs⟩ := createBooking_ok_inv h
  refine ⟨⟨expert, List.mem_of_find?_eq_some hexp, ?_, havail⟩, hb, by rw [hs], ?_, by rw [hs]⟩
  · simpa using List.find?_some hexp
  · obtain ⟨hp, l₁, l₂, hsplit, _⟩ := List.find?_eq_some.mp hslot
    simp only [Bool.and_eq_true, beq_iff_eq, decide_eq_true_eq] at hp
    refine ⟨availableSlot, l₁, l₂, hsplit, hp.1.1.1, hp.2, hp.1.1.2, hp.1.2, ?_⟩
    rw [hs]
    show markSlotBooked s.slots availableSlot.ID = _
    rw [hsplit] at hids ⊢
    exact markSlotBooked_split hids

/-- C5 at a concrete input: user 7 books 11:00 to 12:00 with expert 1 in the store
where that expert offers exactly this slot. -/
theorem createBooking_success_effect_witness :
    (step storeWithInnerSlot (.createBooking 7 (bookElevenToTwelve 1))).bookings =
      storeWithInnerSlot.bookings ++
        [{ ID := 1, UserID := 7, ExpertID := 1, StartTime := 39600, EndTime := 43200,
           Status := pending, Notes := "", Format := "online", CancelReason := "" }] :=
  (createBooking_success_effect storeWithInnerSlot
    (step storeWithInnerSlot (.createBooking 7 (bookElevenToTwelve 1))) 7 (bookElevenToTwelve 1)
    { ID := 1, UserID := 7, ExpertID := 1, StartTime := 39600, EndTime := 43200,
      Status := pending, Notes := "", Format := "online", CancelReason := "" }
    (by decide) (by rfl)).2.2.1

/-! ## Effect of a successful `CancelBooking` -/

/-- Inversion of a successful `CancelBooking`: the row was found and the result is
the store after the two updates. -/
theorem cancelBooking_ok_inv {s s' : Store} {bookingID userID : Nat} {reason : String}
    {now : Int} (h : BookingService.CancelBooking s bookingID userID reason now = .ok s') :
    ∃ b, firstBooking s bookingID = some b ∧ b.ID = bookingID ∧
      ¬ now + hour > b.StartTime ∧
      s' = { s with
        bookings := setCancelled s.bookings bookingID reason,
        slots := freeSlots s.slots b.ExpertID b.StartTime b.EndTime } := by
  cases hb : firstBooking s bookingID with
  | none =>
    unfold BookingService.CancelBooking at h
    rw [hb] at h
    cases h
  | some b =>
    have hid : b.ID = bookingID := by
      have := List.find?_some hb
      simpa using this
    rw [cancelBooking_of_found hb] at h
    split at h
    · cases h
    · split at h
      · cases h
      · rename_i hlate
        refine ⟨b, rfl, hid, by simpa using hlate, ?_⟩
        rw [hid] at h
        cases h
        rfl

/-- C8: whenever `CancelBooking` succeeds, the booking found under the id is stored
with status `cancelled` and with the reason passed in (the empty string included)
and is otherwise as before; every slot of the booking's expert with
`slot.start <= booking.start` and `slot.end >= booking.end` is free afterwards; and
every booking with another id, every slot of another expert and every slot that does
not contain the booking's interval is unchanged, in its place. -/
theorem cancelBooking_success_effect (s s' : Store) (bookingID actor : Nat) (reason : String)
    (now : Int) (h : BookingService.CancelBooking s bookingID actor reason now = .ok s') :
    ∃ b, firstBooking s bookingID = some b ∧ b.ID = bookingID ∧
      { b with Status := cancelled, CancelReason := reason } ∈ s'.bookings ∧
      (∀ x ∈ s'.bookings, x.ID = bookingID → x.Status = cancelled ∧ x.CancelReason = reason) ∧
      (∀ sl ∈ s'.slots, sl.ExpertID = b.ExpertID → sl.StartTime ≤ b.StartTime →
        sl.EndTime ≥ b.EndTime → sl.IsBooked = false) ∧
      s'.bookings.length = s.bookings.length ∧
      (∀ (i : Nat) (x : Booking), s.bookings[i]? = some x →
        (x.ID = bookingID →
          s'.bookings[i]? = some { x with Status := cancelled, CancelReason := reason }) ∧
        (x.ID ≠ bookingID → s'.bookings[i]? = some x)) ∧
      s'.slots.length = s.slots.length ∧
      (∀ (i : Nat) (sl : AvailableSlot), s.slots[i]? = some sl →
        (sl.ExpertID = b.ExpertID ∧ sl.StartTime ≤ b.StartTime ∧ sl.EndTime ≥ b.EndTime →
          s'.slots[i]? = some { sl with IsBooked := false }) ∧
        (¬ (sl.ExpertID = b.ExpertID ∧ sl.StartTime ≤ b.StartTime ∧ sl.EndTime ≥ b.EndTime) →
          s'.slots[i]? = some sl)) ∧
      s'.experts = s.experts := by
  obtain ⟨b, hb, hid, _, hs⟩ := cancelBooking_ok_inv h
  have hbk : s'.bookings = setCancelled s.bookings bookingID reason := by rw [hs]
  have hsl : s'.slots = freeSlots s.slots b.ExpertID b.StartTime b.EndTime := by rw [hs]
  refine ⟨b, hb, hid, ?_, ?_, ?_, ?_, ?_, ?_, ?_, by rw [hs]⟩
  · rw [hbk, setCancelled, List.mem_map]
    exact ⟨b, List.mem_of_find?_eq_some hb, by simp [hid]⟩
  · intro x hx hxid
    rw [hbk, setCancelled, List.mem_map] at hx
    obtain ⟨y, _, hy⟩ := hx
    by_cases hyid : y.ID = bookingID
    · simp only [hyid, beq_self_eq_true, if_true] at hy
      subst hy
      exact ⟨rfl, rfl⟩
    · have hne : (y.ID == bookingID) = false := by simpa using hyid
      simp only [hne] at hy
      subst hy
      exact absurd hxid hyid
  · intro sl hslmem hE hS hT
    rw [hsl, freeSlots, List.mem_map] at hslmem
    obtain ⟨y, _, hy⟩ := hslmem
    split at hy
    · subst hy; rfl
    · rename_i hcond
      subst hy
      exact absurd (by simp [hE, hS, hT]) hcond
  · rw [hbk]; simp [setCancelled]
  · intro i x hx
    rw [hbk]
    constructor
    · intro hxid
      simp [setCancelled, List.getElem?_map, hx, hxid]
    · intro hxid
      simp [setCancelled, List.getElem?_map, hx, hxid]
  · rw [hsl]; simp [freeSlots]
  · intro i sl hi
    rw [hsl]
    constructor
    · intro hc
      simp [freeSlots, List.getElem?_map, hi, hc.1, hc.2.1, hc.2.2]
    · intro hc
      have : (sl.ExpertID == b.ExpertID && decide (sl.StartTime ≤ b.StartTime) &&
          decide (sl.EndTime ≥ b.EndTime)) = false := by
        rw [Bool.eq_false_iff]
        intro ht
        simp only [Bool.and_eq_true, beq_iff_eq, decide_eq_true_eq] at ht
        exact hc ⟨ht.1.1, ht.1.2, ht.2⟩
      simp only [freeSlots, List.getElem?_map, hi, Option.map_some', this]
      rfl

/-- C8 at a concrete input: at time 0 user 7 cancels the own booking 1 of 11:00 to
12:00 with an empty reason; the slot of expert 1 is free afterwards. -/
theorem cancelBooking_success_effect_witness :
    ∃ b, firstBooking storeWithInnerBooking 1 = some b ∧ b.ID = 1 ∧
      { b with Status := cancelled, CancelReason := "" } ∈
        (step storeWithInnerBooking (.cancelBooking 1 7 "" 0)).bookings ∧
      ∀ sl ∈ (step storeWithInnerBooking (.cancelBooking 1 7 "" 0)).slots,
        sl.ExpertID = b.ExpertID → sl.StartTime ≤ b.StartTime → sl.EndTime ≥ b.EndTime →
          sl.IsBooked = false :=
  match cancelBooking_success_effect storeWithInnerBooking
    (step storeWithInnerBooking (.cancelBooking 1 7 "" 0)) 1 7 "" 0 (by rfl) with
  | ⟨b, h₁, h₂, h₃, _, h₅, _⟩ => ⟨b, h₁, h₂, h₃, h₅⟩

/-! ## The expiry pass and terminal statuses -/

/-- The bookings table after the loop of `processExpiredBookings` over the selected
rows `l`: every row whose id is the id of a selected row is `missed`. -/
theorem expireLoop_bookings (l : List Booking) (s : Store) :
    (l.foldl Worker.expireOne s).bookings =
      s.bookings.map (fun b =>
        if l.any (fun e => e.ID == b.ID) then { b with Status := missed } else b) := by
  induction l generalizing s with
  | nil => simp
  | cons e t ih =>
    rw [List.foldl_cons, ih]
    simp only [Worker.expireOne, setStatus, List.map_map]
    apply List.map_congr_left
    intro b _
    by_cases hb : b.ID = e.ID
    · simp [hb]
    · have hb' : ¬ e.ID = b.ID := fun h => hb h.symm
      simp [hb, hb']

/-- The experts table is not touched by the loop of `processExpiredBookings`. -/
theorem expireLoop_experts (l : List Booking) (s : Store) :
    (l.foldl Worker.expireOne s).experts = s.experts := by
  induction l generalizing s with
  | nil => rfl
  | cons e t ih => rw [List.foldl_cons, ih]; rfl

/-- The booking id counter is not touched by the loop of `processExpiredBookings`. -/
theorem expireLoop_nextBookingID (l : List Booking) (s : Store) :
    (l.foldl Worker.expireOne s).nextBookingID = s.nextBookingID := by
  induction l generalizing s with
  | nil => rfl
  | cons e t ih => rw [List.foldl_cons, ih]; rfl

/-- Two rows of a table with unique ids that carry the same id are the same row. -/
theorem eq_of_id_eq {l : List Booking} (hids : (l.map (fun b => b.ID)).Nodup)
    {a b : Booking} (ha : a ∈ l) (hb : b ∈ l) (h : a.ID = b.ID) : a = b :=
  List.inj_on_of_nodup_map hids ha hb h

/-- With unique booking ids, the expiry pass turns exactly the pending rows that
ended before `now` into `missed` rows and leaves the rest of the table as it is. -/
theorem processExpiredBookings_bookings (s : Store) (now : Int)
    (hids : (s.bookings.map (fun b => b.ID)).Nodup) :
    (Worker.processExpiredBookings s now).bookings =
      s.bookings.map (fun b =>
        if b.EndTime < now ∧ b.Status = pending then { b with Status := missed } else b) := by
  unfold Worker.processExpiredBookings
  simp only []
  rw [expireLoop_bookings]
  apply List.map_congr_left
  intro b hb
  have hiff : (s.bookings.filter (fun b => decide (b.EndTime < now) && b.Status == pending)).any
      (fun e => e.ID == b.ID) = true ↔ (b.EndTime < now ∧ b.Status = pending) := by
    rw [List.any_eq_true]
    constructor
    · rintro ⟨e, he, hid⟩
      rw [List.mem_filter] at he
      have hid' : e.ID = b.ID := by simpa using hid
      have heq : e = b := eq_of_id_eq hids he.1 hb hid'
      subst heq
      simpa using he.2
    · intro hcond
      refine ⟨b, ?_, by simp⟩
      rw [List.mem_filter]
      exact ⟨hb, by simpa using hcond⟩
  by_cases hc : b.EndTime < now ∧ b.Status = pending
  · rw [if_pos hc, if_pos (hiff.mpr hc)]
  · rw [if_neg hc, if_neg (fun h => hc (hiff.mp h))]

/-- C10 as stated fails: booking 1 is `completed`, a terminal status, yet at time 0
its user cancels it and it becomes `cancelled`, and `UpdateBookingStatus` moves it
back to `pending`. -/
theorem terminal_status_is_overwritten :
    storeWithCompletedBooking.bookings.map (fun b => (b.ID, b.UserID, b.Status)) =
      [(1, 7, completed)] ∧
    (BookingService.CancelBooking storeWithCompletedBooking 1 7 "" 0).map
      (fun s => s.bookings.map (fun b => (b.ID, b.Status))) = .ok [(1, cancelled)] ∧
    (BookingService.UpdateBookingStatus storeWithCompletedBooking 1 pending).map
      (fun s => s.bookings.map (fun b => (b.ID, b.Status))) = .ok [(1, pending)] ∧
    (ExpertService.UpdateBookingStatus storeWithCompletedBooking 1 pending).map
      (fun s => s.bookings.map (fun b => (b.ID, b.Status))) = .ok [(1, pending)] := by
  decide

/-- C10 as amended: on a store with unique booking ids the expiry pass leaves every
booking whose status is not `pending` unchanged, in its place, so `rejected`,
`cancelled`, `completed` and `missed` bookings are final under expiry.
`CancelBooking` and `UpdateBookingStatus` do not read the current status: a
cancellation by the booking's user at least one hour before the start stores
`cancelled` whatever the status was, and `UpdateBookingStatus` stores whatever
status it is given. -/
theorem expiry_keeps_terminal_status (s : Store) (now : Int)
    (hids : (s.bookings.map (fun b => b.ID)).Nodup) :
    (∀ (i : Nat) (b : Booking), s.bookings[i]? = some b → b.Status ≠ pending →
      (Worker.processExpiredBookings s now).bookings[i]? = some b) ∧
    (∀ (bookingID : Nat) (reason : String) (t : Int) (b : Booking),
      firstBooking s bookingID = some b → ¬ t + hour > b.StartTime →
      ∃ s', BookingService.CancelBooking s bookingID b.UserID reason t = .ok s' ∧
        { b with Status := cancelled, CancelReason := reason } ∈ s'.bookings) ∧
    (∀ (bookingID : Nat) (status : String) (b : Booking), b ∈ s.bookings → b.ID = bookingID →
      ∃ s', BookingService.UpdateBookingStatus s bookingID status = .ok s' ∧
        ExpertService.UpdateBookingStatus s bookingID status = .ok s' ∧
        { b with Status := status } ∈ s'.bookings) := by
  refine ⟨?_, ?_, ?_⟩
  · intro i b hb hst
    rw [processExpiredBookings_bookings s now hids, List.getElem?_map, hb]
    have hc : ¬ (b.EndTime < now ∧ b.Status = pending) := fun h => hst h.2
    simp only [Option.map_some', if_neg hc]
  · intro bookingID reason t b hb hlate
    have hok : BookingService.CancelBooking s bookingID b.UserID reason t =
        .ok { s with
          bookings := setCancelled s.bookings b.ID reason,
          slots := freeSlots s.slots b.ExpertID b.StartTime b.EndTime } := by
      rw [cancelBooking_of_found hb]
      have hl : decide (t + hour > b.StartTime) = false := by simpa using hlate
      simp [hl]
    refine ⟨_, hok, ?_⟩
    show _ ∈ setCancelled s.bookings b.ID reason
    rw [setCancelled, List.mem_map]
    exact ⟨b, List.mem_of_find?_eq_some hb, by simp⟩
  · intro bookingID status b hb hid
    refine ⟨{ s with bookings := setStatus s.bookings bookingID status }, rfl, rfl, ?_⟩
    show _ ∈ setStatus s.bookings bookingID status
    rw [setStatus, List.mem_map]
    exact ⟨b, hb, by simp [hid]⟩

/-- C10 at a concrete input: the expiry pass at 14:00 leaves the completed booking 1,
whose end 12:00 has passed, as it is. -/
theorem expiry_keeps_terminal_status_witness :
    (Worker.processExpiredBookings storeWithCompletedBooking 50400).bookings[0]? =
      some { ID := 1, UserID := 7, ExpertID := 1, StartTime := 39600, EndTime := 43200,
             Status := completed, Notes := "", Format := "online", CancelReason := "" } :=
  (expiry_keeps_terminal_status storeWithCompletedBooking 50400 (by decide)).1 0 _
    (by decide) (by decide)

/-! ## The safety invariant over reachable stores -/

/-- Ids increasing along the table are unique. -/
theorem nodup_ids_of_pairwise {l : List Booking} (h : l.Pairwise clearOf) :
    (l.map (fun b => b.ID)).Nodup := by
  rw [List.Nodup, List.pairwise_map]
  exact h.imp (fun hab => Nat.ne_of_lt hab.1)

/-- A row-wise update that keeps id, expert and interval and never turns a closed
row into a blocking one preserves the pairwise relation. -/
theorem pairwise_clearOf_map {l : List Booking} (f : Booking → Booking)
    (hid : ∀ x, (f x).ID = x.ID) (hexp : ∀ x, (f x).ExpertID = x.ExpertID)
    (hst : ∀ x, (f x).StartTime = x.StartTime) (hen : ∀ x, (f x).EndTime = x.EndTime)
    (hblock : ∀ x ∈ l, statusBlocks (f x).Status = true → statusBlocks x.Status = true)
    (h : l.Pairwise clearOf) : (l.map f).Pairwise clearOf := by
  rw [List.pairwise_map]
  refine h.imp_of_mem ?_
  intro a b ha hb hab
  refine ⟨by rw [hid, hid]; exact hab.1, ?_⟩
  intro hE hA hB
  rw [hexp, hexp] at hE
  rw [hst a, hen a, hst b, hen b]
  exact hab.2 hE (hblock a ha hA) (hblock b hb hB)

/-- A successful `CreateAvailableSlot` leaves the bookings table and its counter alone. -/
theorem createAvailableSlot_bookings {s s' : Store} {E : Nat} {J : CreateSlotRequest}
    {now : Int} (h : ExpertService.CreateAvailableSlot s E J now = .ok s') :
    s'.bookings = s.bookings ∧ s'.nextBookingID = s.nextBookingID := by
  unfold ExpertService.CreateAvailableSlot at h
  split at h
  · cases h
  · simp only [] at h
    split at h
    · cases h
    · cases h
      exact ⟨rfl, rfl⟩

/-- Every call that does not reopen a closed booking preserves the invariant. -/
theorem bookingsInv_step {s : Store} (op : Op) (hinv : BookingsInv s)
    (hop : op.keepsClosed s) : BookingsInv (step s op) := by
  obtain ⟨hlt, hpw⟩ := hinv
  cases op with
  | createAvailableSlot expertID req now =>
    simp only [step]
    split
    · rename_i s' hok
      obtain ⟨hb, hn⟩ := createAvailableSlot_bookings hok
      exact ⟨by rw [hb, hn]; exact hlt, by rw [hb]; exact hpw⟩
    · exact ⟨hlt, hpw⟩
  | createBooking userID req =>
    simp only [step]
    split
    · rename_i b s' hok
      obtain ⟨_, _, _, _, _, hfree, _, hb, hs⟩ := createBooking_ok_inv hok
      subst hs
      constructor
      · intro x hx
        rcases List.mem_append.mp hx with hx | hx
        · exact Nat.lt_succ_of_lt (hlt x hx)
        · rw [List.mem_singleton] at hx
          subst hx
          rw [hb]
          exact Nat.lt_succ_self _
      · show (s.bookings ++ [b]).Pairwise clearOf
        rw [List.pairwise_append]
        refine ⟨hpw, List.pairwise_singleton _ _, ?_⟩
        intro a ha y hy
        rw [List.mem_singleton] at hy
        subst hy
        refine ⟨by rw [hb]; exact hlt a ha, ?_⟩
        intro hE hA _
        rw [hb] at hE ⊢
        exact hfree a ha hE hA
    · exact ⟨hlt, hpw⟩
  | cancelBooking bookingID userID reason now =>
    simp only [step]
    split
    · rename_i s' hok
      obtain ⟨b, _, _, _, hs⟩ := cancelBooking_ok_inv hok
      subst hs
      constructor
      · intro x hx
        simp only [setCancelled, List.mem_map] at hx
        obtain ⟨y, hy, rfl⟩ := hx
        have := hlt y hy
        split <;> exact this
      · show (setCancelled s.bookings bookingID reason).Pairwise clearOf
        refine pairwise_clearOf_map _ ?_ ?_ ?_ ?_ ?_ hpw
        · intro x; dsimp only; split <;> rfl
        · intro x; dsimp only; split <;> rfl
        · intro x; dsimp only; split <;> rfl
        · intro x; dsimp only; split <;> rfl
        · intro x _ hx
          split at hx
          · have hc : statusBlocks cancelled = false := by decide
            rw [show statusBlocks cancelled = true from hx] at hc
            cases hc
          · exact hx
    · exact ⟨hlt, hpw⟩
  | updateBookingStatus bookingID status =>
    simp only [step, ExpertService.UpdateBookingStatus]
    constructor
    · intro x hx
      simp only [setStatus, List.mem_map] at hx
      obtain ⟨y, hy, rfl⟩ := hx
      have := hlt y hy
      split <;> exact this
    · show (setStatus s.bookings bookingID status).Pairwise clearOf
      refine pairwise_clearOf_map _ ?_ ?_ ?_ ?_ ?_ hpw
      · intro x; dsimp only; split <;> rfl
      · intro x; dsimp only; split <;> rfl
      · intro x; dsimp only; split <;> rfl
      · intro x; dsimp only; split <;> rfl
      · intro x hxmem hx
        split at hx
        · rename_i hid
          cases hsx : statusBlocks x.Status with
          | true => rfl
          | false =>
            have := hop x hxmem (by simpa using hid) hsx
            rw [this] at hx
            exact absurd hx (by decide)
        · exact hx
  | expiryPass now =>
    simp only [step]
    have hb := processExpiredBookings_bookings s now (nodup_ids_of_pairwise hpw)
    have hn : (Worker.processExpiredBookings s now).nextBookingID = s.nextBookingID :=
      expireLoop_nextBookingID _ s
    constructor
    · intro x hx
      rw [hb, List.mem_map] at hx
      obtain ⟨y, hy, rfl⟩ := hx
      rw [hn]
      have := hlt y hy
      split <;> exact this
    · rw [hb]
      refine pairwise_clearOf_map _ ?_ ?_ ?_ ?_ ?_ hpw
      · intro x; dsimp only; split <;> rfl
      · intro x; dsimp only; split <;> rfl
      · intro x; dsimp only; split <;> rfl
      · intro x; dsimp only; split <;> rfl
      · intro x _ hx
        split at hx
        · rename_i hc
          rw [hc.2]
          decide
        · exact hx

/-- The invariant holds after every sequence of calls that reopens no closed booking. -/
theorem bookingsInv_run (ops : List Op) (s : Store) (hinv : BookingsInv s)
    (hops : keepsClosedRun s ops) : BookingsInv (run s ops) := by
  induction ops generalizing s with
  | nil => exact hinv
  | cons op rest ih =>
    simp only [run, List.foldl_cons]
    exact ih (step s op) (bookingsInv_step op hinv hops.1) hops.2

/-- C1 as stated fails. After expert 1 published 11:00 to 12:00 and 10:00 to 13:00,
user 7 booked the first and user 8 the second interval, two pending bookings of
expert 1 overlap. And after user 7 cancelled a booking, user 8 booked the freed slot
and `UpdateBookingStatus` set the cancelled booking to `confirmed`, a confirmed and a
pending booking of expert 1 have the same interval. -/
theorem expertBookingsDisjoint_fails :
    ¬ ExpertBookingsDisjoint (run (emptyStore [expertOne]) doubleBookingOps) ∧
    ¬ ExpertBookingsDisjoint (run (emptyStore [expertOne]) reopenOps) := by
  decide

/-- C1 as amended: in every store reached from a store without slots and bookings
by a sequence of `CreateAvailableSlot`, `CreateBooking`, `CancelBooking`,
`UpdateBookingStatus` and expiry passes executed one at a time, in which no
`UpdateBookingStatus` moves a booking out of `cancelled` or `completed`, any two
distinct bookings of the same expert whose statuses are neither `cancelled` nor
`completed` have different ids, and the one with the larger id (created later)
neither starts nor ends within the other. -/
theorem later_booking_clear_of_earlier (experts : List Expert) (ops : List Op)
    (hops : keepsClosedRun (emptyStore experts) ops) (a b : Booking)
    (ha : a ∈ (run (emptyStore experts) ops).bookings)
    (hb : b ∈ (run (emptyStore experts) ops).bookings) (hne : a ≠ b)
    (hE : a.ExpertID = b.ExpertID)
    (hsa : a.Status ≠ cancelled ∧ a.Status ≠ completed)
    (hsb : b.Status ≠ cancelled ∧ b.Status ≠ completed) :
    (a.ID < b.ID ∧ ¬ startsOrEndsWithin a b) ∨ (b.ID < a.ID ∧ ¬ startsOrEndsWithin b a) := by
  have hinit : BookingsInv (emptyStore experts) :=
    ⟨fun x hx => absurd hx (List.not_mem_nil x), List.Pairwise.nil⟩
  obtain ⟨_, hpw⟩ := bookingsInv_run ops (emptyStore experts) hinit hops
  have hsym : Symmetric (fun x y : Booking => clearOf x y ∨ clearOf y x) :=
    fun _ _ h => h.symm
  have hpw' : (run (emptyStore experts) ops).bookings.Pairwise
      (fun x y : Booking => clearOf x y ∨ clearOf y x) := hpw.imp (fun h => Or.inl h)
  have hA : statusBlocks a.Status = true := by simp [statusBlocks, hsa.1, hsa.2]
  have hB : statusBlocks b.Status = true := by simp [statusBlocks, hsb.1, hsb.2]
  have key : ∀ x y : Booking, x.ExpertID = y.ExpertID → statusBlocks x.Status = true →
      statusBlocks y.Status = true → clearOf x y → x.ID < y.ID ∧ ¬ startsOrEndsWithin x y := by
    intro x y hxy hx hy hc
    refine ⟨hc.1, ?_⟩
    have hcc := hc.2 hxy hx hy
    intro hw
    have : conflictCondition x.StartTime x.EndTime y.StartTime y.EndTime = true := by
      simp only [conflictCondition, Bool.or_eq_true, Bool.and_eq_true, decide_eq_true_eq]
      rcases hw with h | h
      · exact Or.inl ⟨h.1, h.2⟩
      · exact Or.inr ⟨h.1, h.2⟩
    rw [this] at hcc
    cases hcc
  rcases hpw'.forall hsym ha hb hne with h | h
  · exact Or.inl (key a b hE hA hB h)
  · exact Or.inr (key b a hE.symm hB hA h)

/-- C1 as amended, at a concrete input: after `backToBackOps` expert 1 has the
confirmed booking 1 of 11:00 to 12:00 and the pending booking 2 of 12:00 to 13:00;
booking 2 neither starts nor ends within booking 1. -/
theorem later_booking_clear_of_earlier_witness :
    ((1 : Nat) < 2 ∧ ¬ startsOrEndsWithin
      { ID := 1, UserID := 7, ExpertID := 1, StartTime := 39600, EndTime := 43200,
        Status := confirmed, Notes := "", Format := "online", CancelReason := "" }
      { ID := 2, UserID := 8, ExpertID := 1, StartTime := 43200, EndTime := 46800,
        Status := pending, Notes := "", Format := "online", CancelReason := "" }) ∨
    ((2 : Nat) < 1 ∧ ¬ startsOrEndsWithin
      { ID := 2, UserID := 8, ExpertID := 1, StartTime := 43200, EndTime := 46800,
        Status := pending, Notes := "", Format := "online", CancelReason := "" }
      { ID := 1, UserID := 7, ExpertID := 1, StartTime := 39600, EndTime := 43200,
        Status := confirmed, Notes := "", Format := "online", CancelReason := "" }) :=
  later_booking_clear_of_earlier [expertOne] backToBackOps (by decide)
    { ID := 1, UserID := 7, ExpertID := 1, StartTime := 39600, EndTime := 43200,
      Status := confirmed, Notes := "", Format := "online", CancelReason := "" }
    { ID := 2, UserID := 8, ExpertID := 1, StartTime := 43200, EndTime := 46800,
      Status := pending, Notes := "", Format := "online", CancelReason := "" }
    (by decide) (by decide) (by decide) rfl (by decide) (by decide)


/-! ## Effect of the expiry pass -/

/-- The slots table after the loop of `processExpiredBookings` over the selected
rows `l`: every slot of the expert of a selected row that contains the interval of
that row is free, and every other slot is as before. -/
theorem expireLoop_slots (l : List Booking) (s : Store) :
    (l.foldl Worker.expireOne s).slots =
      s.slots.map (fun sl =>
        if l.any (fun e => sl.ExpertID == e.ExpertID && decide (sl.StartTime ≤ e.StartTime) &&
            decide (sl.EndTime ≥ e.EndTime))
        then { sl with IsBooked := false } else sl) := by
  induction l generalizing s with
  | nil => simp
  | cons e t ih =>
    rw [List.foldl_cons, ih]
    simp only [Worker.expireOne, freeSlots, List.map_map]
    apply List.map_congr_left
    intro sl _
    by_cases hm : (sl.ExpertID == e.ExpertID && decide (sl.StartTime ≤ e.StartTime) &&
        decide (sl.EndTime ≥ e.EndTime)) = true
    · simp only [Function.comp_apply, hm, if_true, List.any_cons, Bool.true_or]
      split <;> rfl
    · have hm' : (sl.ExpertID == e.ExpertID && decide (sl.StartTime ≤ e.StartTime) &&
          decide (sl.EndTime ≥ e.EndTime)) = false := by simpa using hm
      simp only [Function.comp_apply, hm', List.any_cons, Bool.false_or]
      rfl

/-- C16: after the expiry pass run at time `now` on a store with unique booking ids,
every booking that was pending with end before `now` is `missed` and otherwise as
before; every other booking is unchanged, in its place (so a confirmed booking
whose end has passed stays confirmed and a pending booking with end at or after
`now` stays pending); and every slot of the expert of an expired booking that
contains that booking's interval is free. -/
theorem processExpiredBookings_effect (s : Store) (now : Int)
    (hids : (s.bookings.map (fun b => b.ID)).Nodup) :
    (Worker.processExpiredBookings s now).bookings.length = s.bookings.length ∧
    (∀ (i : Nat) (b : Booking), s.bookings[i]? = some b →
      (b.Status = pending ∧ b.EndTime < now →
        (Worker.processExpiredBookings s now).bookings[i]? = some { b with Status := missed }) ∧
      (¬ (b.Status = pending ∧ b.EndTime < now) →
        (Worker.processExpiredBookings s now).bookings[i]? = some b)) ∧
    (∀ b ∈ s.bookings, b.Status = pending → b.EndTime < now →
      ∀ sl ∈ (Worker.processExpiredBookings s now).slots, sl.ExpertID = b.ExpertID →
        sl.StartTime ≤ b.StartTime → sl.EndTime ≥ b.EndTime → sl.IsBooked = false) := by
  have hb := processExpiredBookings_bookings s now hids
  refine ⟨by rw [hb]; simp, ?_, ?_⟩
  · intro i b hi
    rw [hb, List.getElem?_map, hi]
    constructor
    · intro hc
      simp only [Option.map_some', if_pos (And.intro hc.2 hc.1)]
    · intro hc
      have hc' : ¬ (b.EndTime < now ∧ b.Status = pending) := fun h => hc ⟨h.2, h.1⟩
      simp only [Option.map_some', if_neg hc']
  · intro b hbmem hpend hend sl hsl hE hS hT
    have hslots : (Worker.processExpiredBookings s now).slots = _ :=
      expireLoop_slots (s.bookings.filter (fun b => decide (b.EndTime < now) && b.Status == pending)) s
    rw [hslots, List.mem_map] at hsl
    obtain ⟨y, _, hy⟩ := hsl
    split at hy
    · subst hy; rfl
    · rename_i hany
      subst hy
      exfalso
      apply hany
      rw [List.any_eq_true]
      refine ⟨b, ?_, by simp [hE, hS, hT]⟩
      rw [List.mem_filter]
      exact ⟨hbmem, by simp [hpend, hend]⟩

/-- C16 at a concrete input: the expiry pass at 14:00 turns the pending booking 1 of
11:00 to 12:00 into a missed one. -/
theorem processExpiredBookings_effect_witness :
    (Worker.processExpiredBookings storeWithInnerBooking 50400).bookings[0]? =
      some { ID := 1, UserID := 7, ExpertID := 1, StartTime := 39600, EndTime := 43200,
             Status := missed, Notes := "", Format := "online", CancelReason := "" } :=
  ((processExpiredBookings_effect storeWithInnerBooking 50400 (by decide)).2.1 0
    { ID := 1, UserID := 7, ExpertID := 1, StartTime := 39600, EndTime := 43200,
      Status := pending, Notes := "", Format := "online", CancelReason := "" }
    (by decide)).1 (by decide)

/-! ## No validation of intervals -/

/-- Inversion of a successful `CreateAvailableSlot`: the expert exists, the conflict
query counted no row, and the request is appended as a free slot. -/
theorem createAvailableSlot_ok_inv {s s' : Store} {E : Nat} {J : CreateSlotRequest}
    {now : Int} (h : ExpertService.CreateAvailableSlot s E J now = .ok s') :
    (∃ e, firstExpert s E = some e) ∧
    (∀ sl ∈ s.slots, sl.ExpertID = E →
      conflictCondition sl.StartTime sl.EndTime J.StartTime J.EndTime = false) ∧
    s'.slots = s.slots ++ [{ ID := s.nextSlotID, ExpertID := E, StartTime := J.StartTime,
                             EndTime := J.EndTime, IsBooked := false }] ∧
    s'.nextSlotID = s.nextSlotID + 1 ∧ s'.bookings = s.bookings ∧
    s'.nextBookingID = s.nextBookingID ∧ s'.experts = s.experts := by
  unfold ExpertService.CreateAvailableSlot at h
  split at h
  · cases h
  · rename_i e he
    simp only [] at h
    split at h
    · cases h
    · rename_i hcount
      cases h
      refine ⟨⟨e, he⟩, ?_, rfl, rfl, rfl, rfl, rfl⟩
      intro sl hsl hE
      rw [count_pos_iff] at hcount
      cases hc : conflictCondition sl.StartTime sl.EndTime J.StartTime J.EndTime with
      | false => rfl
      | true => exact absurd ⟨sl, hsl, by simp [hE, hc]⟩ hcount

/-- A request that passes the five checks of `CreateBooking` is stored. -/
theorem createBooking_ok_of_checks {s : Store} {userID : Nat} {req : CreateBookingRequest}
    {expert : Expert} (hexp : firstExpert s req.ExpertID = some expert)
    (havail : expert.IsAvailable = true)
    (huser : ∀ x ∈ s.bookings, x.UserID = userID → statusBlocks x.Status = true →
      conflictCondition x.StartTime x.EndTime req.StartTime req.EndTime = false)
    (hexpert : ∀ x ∈ s.bookings, x.ExpertID = req.ExpertID → statusBlocks x.Status = true →
      conflictCondition x.StartTime x.EndTime req.StartTime req.EndTime = false)
    (hslot : ∃ sl ∈ s.slots, sl.ExpertID = req.ExpertID ∧ sl.StartTime ≤ req.StartTime ∧
      sl.EndTime ≥ req.EndTime ∧ sl.IsBooked = false) :
    ∃ b s', BookingService.CreateBooking s userID req = .ok (b, s') := by
  have hu : ¬ (s.bookings.filter (fun b =>
      b.UserID == userID && statusBlocks b.Status &&
        conflictCondition b.StartTime b.EndTime req.StartTime req.EndTime)).length > 0 := by
    rw [count_pos_iff]
    rintro ⟨x, hx, hp⟩
    simp only [Bool.and_eq_true, beq_iff_eq] at hp
    rw [huser x hx hp.1.1 hp.1.2] at hp
    exact absurd hp.2 (by simp)
  have he : ¬ (s.bookings.filter (fun b =>
      b.ExpertID == req.ExpertID && statusBlocks b.Status &&
        conflictCondition b.StartTime b.EndTime req.StartTime req.EndTime)).length > 0 := by
    rw [count_pos_iff]
    rintro ⟨x, hx, hp⟩
    simp only [Bool.and_eq_true, beq_iff_eq] at hp
    rw [hexpert x hx hp.1.1 hp.1.2] at hp
    exact absurd hp.2 (by simp)
  have hfind : (s.slots.find? (fun sl =>
      sl.ExpertID == req.ExpertID && decide (sl.StartTime ≤ req.StartTime) &&
        decide (sl.EndTime ≥ req.EndTime) && sl.IsBooked == false)).isSome = true := by
    rw [List.find?_isSome]
    obtain ⟨sl, hsl, h₁, h₂, h₃, h₄⟩ := hslot
    exact ⟨sl, hsl, by simp [h₁, h₂, h₃, h₄]⟩
  obtain ⟨availableSlot, hav⟩ := Option.isSome_iff_exists.mp hfind
  unfold BookingService.CreateBooking
  simp only [hexp, havail, hu, he, hav, if_false, Bool.not_true, Bool.false_eq_true]
  exact ⟨_, _, rfl⟩

/-- C13 as stated fails: expert 1 publishes a slot from 12:00 back to 11:00 and it is
stored; user 7 books the empty interval 11:30 to 11:30 inside the slot 11:00 to 12:00
and the booking is stored. Neither call returns an error. -/
theorem degenerate_intervals_are_stored :
    (ExpertService.CreateAvailableSlot (emptyStore [expertOne]) 1 slotTwelveToEleven 0).map
      Store.slots =
      .ok [{ ID := 1, ExpertID := 1, StartTime := 43200, EndTime := 39600, IsBooked := false }] ∧
    ¬ slotTwelveToEleven.StartTime < slotTwelveToEleven.EndTime ∧
    (BookingService.CreateBooking storeWithInnerSlot 7 bookEmptyInterval).map Prod.fst =
      .ok { ID := 1, UserID := 7, ExpertID := 1, StartTime := 41400, EndTime := 41400,
            Status := pending, Notes := "", Format := "online", CancelReason := "" } ∧
    ¬ bookEmptyInterval.StartTime < bookEmptyInterval.EndTime := by
  decide

/-- C13 as amended: neither method compares start with end, and neither has a
validation error. For an existing expert, `CreateAvailableSlot` succeeds exactly when
the conflict query flags no slot of the expert, and then stores the request as given.
`CreateBooking` succeeds exactly when the expert exists and is available, the conflict
queries flag no blocking booking of the user or of the expert, and the expert has a
free slot with `slot.start <= start` and `slot.end >= end`, and then stores a booking
with the requested start and end. This holds for every request, start at or after end
included. -/
theorem creation_checks_ignore_interval_order (s : Store) :
    (∀ (E : Nat) (req : CreateSlotRequest) (now : Int),
      ((∃ s', ExpertService.CreateAvailableSlot s E req now = .ok s') ↔
        ((∃ e, firstExpert s E = some e) ∧ ∀ sl ∈ s.slots, sl.ExpertID = E →
          conflictCondition sl.StartTime sl.EndTime req.StartTime req.EndTime = false)) ∧
      (∀ s', ExpertService.CreateAvailableSlot s E req now = .ok s' →
        s'.slots = s.slots ++ [{ ID := s.nextSlotID, ExpertID := E, StartTime := req.StartTime,
                                 EndTime := req.EndTime, IsBooked := false }])) ∧
    (∀ (userID : Nat) (req : CreateBookingRequest),
      ((∃ b s', BookingService.CreateBooking s userID req = .ok (b, s')) ↔
        ((∃ e, firstExpert s req.ExpertID = some e ∧ e.IsAvailable = true) ∧
         (∀ x ∈ s.bookings, x.UserID = userID → statusBlocks x.Status = true →
            conflictCondition x.StartTime x.EndTime req.StartTime req.EndTime = false) ∧
         (∀ x ∈ s.bookings, x.ExpertID = req.ExpertID → statusBlocks x.Status = true →
            conflictCondition x.StartTime x.EndTime req.StartTime req.EndTime = false) ∧
         (∃ sl ∈ s.slots, sl.ExpertID = req.ExpertID ∧ sl.StartTime ≤ req.StartTime ∧
            sl.EndTime ≥ req.EndTime ∧ sl.IsBooked = false))) ∧
      (∀ b s', BookingService.CreateBooking s userID req = .ok (b, s') →
        b.StartTime = req.StartTime ∧ b.EndTime = req.EndTime ∧
          s'.bookings = s.bookings ++ [b])) := by
  constructor
  · intro E req now
    refine ⟨⟨?_, ?_⟩, ?_⟩
    · rintro ⟨s', h⟩
      obtain ⟨he, hno, _⟩ := createAvailableSlot_ok_inv h
      exact ⟨he, hno⟩
    · rintro ⟨⟨e, he⟩, hno⟩
      have hE : ∃ e ∈ s.experts, e.ID = E :=
        ⟨e, List.mem_of_find?_eq_some he, by simpa using List.find?_some he⟩
      obtain ⟨s', hok, _⟩ := createAvailableSlot_ok now hE hno
      exact ⟨s', hok⟩
    · intro s' h
      exact (createAvailableSlot_ok_inv h).2.2.1
  · intro userID req
    refine ⟨⟨?_, ?_⟩, ?_⟩
    · rintro ⟨b, s', h⟩
      obtain ⟨expert, availableSlot, hexp, havail, hu, he, hslot, _, _⟩ := createBooking_ok_inv h
      refine ⟨⟨expert, hexp, havail⟩, hu, he, availableSlot, List.mem_of_find?_eq_some hslot, ?_⟩
      have hp := List.find?_some hslot
      simp only [Bool.and_eq_true, beq_iff_eq, decide_eq_true_eq] at hp
      exact ⟨hp.1.1.1, hp.1.1.2, hp.1.2, hp.2⟩
    · rintro ⟨⟨e, hexp, havail⟩, hu, he, hslot⟩
      exact createBooking_ok_of_checks hexp havail hu he hslot
    · intro b s' h
      obtain ⟨_, _, _, _, _, _, _, hb, hs⟩ := createBooking_ok_inv h
      refine ⟨by rw [hb], by rw [hb], by rw [hs]⟩

/-! ## Which slot `CreateBooking` matches -/

/-- C14 as stated fails: slot 1 (11:00 to 12:00) and slot 2 (10:00 to 13:00) of
expert 1 are free and both contain the request 11:00 to 12:00; slot 2 starts earlier,
yet `CreateBooking` marks slot 1, the row with the lower id. -/
theorem createBooking_matches_later_start :
    storeWithNestedSlots.slots =
      [{ ID := 1, ExpertID := 1, StartTime := 39600, EndTime := 43200, IsBooked := false },
       { ID := 2, ExpertID := 1, StartTime := 36000, EndTime := 46800, IsBooked := false }] ∧
    (BookingService.CreateBooking storeWithNestedSlots 7 (bookElevenToTwelve 1)).map
      (fun r => r.2.slots) =
      .ok [{ ID := 1, ExpertID := 1, StartTime := 39600, EndTime := 43200, IsBooked := true },
           { ID := 2, ExpertID := 1, StartTime := 36000, EndTime := 46800, IsBooked := false }] := by
  decide

/-- C14 as amended: on a slots table in ascending id order, the slot that a
successful `CreateBooking` matches and marks booked is the one with the lowest id
among the free slots of the expert that contain the requested interval; start times
play no part in the choice. Every slot with another id is unchanged. -/
theorem createBooking_matches_lowest_id (s s' : Store) (userID : Nat)
    (req : CreateBookingRequest) (b : Booking)
    (hsorted : s.slots.Pairwise (fun x y => x.ID < y.ID))
    (h : BookingService.CreateBooking s userID req = .ok (b, s')) :
    ∃ m ∈ s.slots,
      (m.ExpertID = req.ExpertID ∧ m.StartTime ≤ req.StartTime ∧ m.EndTime ≥ req.EndTime ∧
        m.IsBooked = false) ∧
      (∀ sl ∈ s.slots, sl.ExpertID = req.ExpertID → sl.StartTime ≤ req.StartTime →
        sl.EndTime ≥ req.EndTime → sl.IsBooked = false → m.ID ≤ sl.ID) ∧
      { m with IsBooked := true } ∈ s'.slots ∧
      (∀ sl ∈ s.slots, sl.ID ≠ m.ID → sl ∈ s'.slots) := by
  obtain ⟨_, m, _, _, _, _, hslot, _, hs⟩ := createBooking_ok_inv h
  obtain ⟨hp, l₁, l₂, hsplit, hbefore⟩ := List.find?_eq_some.mp hslot
  simp only [Bool.and_eq_true, beq_iff_eq, decide_eq_true_eq] at hp
  have hslots : s'.slots = markSlotBooked s.slots m.ID := by rw [hs]
  refine ⟨m, List.mem_of_find?_eq_some hslot, ⟨hp.1.1.1, hp.1.1.2, hp.1.2, hp.2⟩, ?_, ?_, ?_⟩
  · intro sl hsl hE hS hT hF
    rw [hsplit] at hsl hsorted
    rcases List.mem_append.mp hsl with hin | hin
    · have := hbefore sl hin
      simp [hE, hS, hT, hF] at this
    · rcases List.mem_cons.mp hin with heq | hin'
      · rw [heq]
      · have hpw := (List.pairwise_append.mp hsorted).2.1
        exact Nat.le_of_lt ((List.pairwise_cons.mp hpw).1 sl hin')
  · rw [hslots, markSlotBooked, List.mem_map]
    exact ⟨m, List.mem_of_find?_eq_some hslot, by simp⟩
  · intro sl hsl hne
    rw [hslots, markSlotBooked, List.mem_map]
    exact ⟨sl, hsl, by simp [hne]⟩

/-- C14 as amended, at a concrete input: with slot 1 (11:00 to 12:00) and slot 2
(10:00 to 13:00) both free, the request 11:00 to 12:00 marks slot 1. -/
theorem createBooking_matches_lowest_id_witness :
    ∃ m ∈ storeWithNestedSlots.slots,
      (∀ sl ∈ storeWithNestedSlots.slots, sl.ExpertID = 1 → sl.StartTime ≤ 39600 →
        sl.EndTime ≥ 43200 → sl.IsBooked = false → m.ID ≤ sl.ID) ∧
      { m with IsBooked := true } ∈
        (step storeWithNestedSlots (.createBooking 7 (bookElevenToTwelve 1))).slots :=
  match createBooking_matches_lowest_id storeWithNestedSlots
    (step storeWithNestedSlots (.createBooking 7 (bookElevenToTwelve 1))) 7
    (bookElevenToTwelve 1)
    { ID := 1, UserID := 7, ExpertID := 1, StartTime := 39600, EndTime := 43200,
      Status := pending, Notes := "", Format := "online", CancelReason := "" }
    (by decide) (by rfl) with
  | ⟨m, hm, _, hlow, hin, _⟩ => ⟨m, hm, hlow, hin⟩

/-! ## The reminder pass -/

/-- The records of a pass depend on the store only through the users and experts
tables. -/
theorem reminderRecords_congr (s s' : Store) (hu : s'.users = s.users)
    (he : s'.experts = s.experts) (now : Int) (nextID : Nat) (l : List Booking) :
    reminderRecords s' now nextID l = reminderRecords s now nextID l := by
  induction l generalizing nextID with
  | nil => rfl
  | cons b rest ih =>
    simp only [reminderRecords, reminderPair, preloadUser, preloadExpert, firstExpert, hu, he, ih]

/-- The loop of `processReminders` over the rows `l`, whatever the mails do: the
records of `l` are appended to the notifications table, and nothing else changes. -/
theorem remindLoop_store (emailOk : Booking → Bool) (now : Int) (l : List Booking)
    (st : Store × List Nat) :
    (l.foldl (Worker.remindOne emailOk now) st).1 =
      { st.1 with
        notifications := st.1.notifications ++
          reminderRecords st.1 now st.1.nextNotificationID l,
        nextNotificationID := st.1.nextNotificationID + 2 * l.length } := by
  induction l generalizing st with
  | nil => simp [reminderRecords]
  | cons b rest ih =>
    rw [List.foldl_cons, ih]
    have hrec : reminderRecords (Worker.remindOne emailOk now st b).1 now
        (st.1.nextNotificationID + 2) rest =
        reminderRecords st.1 now (st.1.nextNotificationID + 2) rest :=
      reminderRecords_congr st.1 (Worker.remindOne emailOk now st b).1 rfl rfl now _ rest
    simp only [Worker.remindOne, NotificationService.CreateNotification] at hrec ⊢
    rw [hrec]
    simp only [reminderRecords, reminderPair, List.length_cons, List.append_assoc,
      List.cons_append, List.nil_append, List.singleton_append]
    congr 1
    omega

/-- The mails that failed in the loop of `processReminders`: the ids of the rows for
which `SendReminder` returned an error, in the order of the loop. -/
theorem remindLoop_log (emailOk : Booking → Bool) (now : Int) (l : List Booking)
    (st : Store × List Nat) :
    (l.foldl (Worker.remindOne emailOk now) st).2 =
      st.2 ++ (l.filter (fun b => !emailOk b)).map (fun b => b.ID) := by
  induction l generalizing st with
  | nil => simp
  | cons b rest ih =>
    rw [List.foldl_cons, ih]
    cases hb : emailOk b <;> simp [Worker.remindOne, hb]

/-- Who the records of a pass are addressed to: for each selected row, in order, the
booking's user and then the user account of the booking's expert. -/
theorem reminderRecords_addressees (s : Store) (now : Int) (nextID : Nat) (l : List Booking) :
    (reminderRecords s now nextID l).map (fun n => (n.UserID, n.NotificationType)) =
      l.flatMap (fun b =>
        [(b.UserID, reminderType), ((preloadExpert s b.ExpertID).UserID, reminderType)]) := by
  induction l generalizing nextID with
  | nil => rfl
  | cons b rest ih =>
    simp only [reminderRecords, reminderPair, List.map_append, List.map_cons, List.map_nil,
      List.flatMap_cons, ih]

/-- C20: for every list `l` of selected bookings and every pattern `emailOk` of mail
successes and failures, the loop of the reminder pass appends to the notifications
table, for each booking of `l` in turn, exactly one record of type `reminder`
addressed to the booking's user followed by exactly one addressed to the user account
of the booking's expert, two records per booking; the records and the rest of the
store are the same for every `emailOk`, and the failed mails are only logged. The
pass itself runs this loop over the rows of its query. -/
theorem reminder_records_for_each_booking (s : Store) (now : Int) (l : List Booking)
    (emailOk : Booking → Bool) :
    (∃ recs : List Notification,
      (l.foldl (Worker.remindOne emailOk now) (s, [])).1.notifications =
        s.notifications ++ recs ∧
      recs.map (fun n => (n.UserID, n.NotificationType)) =
        l.flatMap (fun b =>
          [(b.UserID, reminderType), ((preloadExpert s b.ExpertID).UserID, reminderType)]) ∧
      recs.length = 2 * l.length ∧
      (∀ e ∈ s.experts, ∀ b ∈ l, e.ID = b.ExpertID →
        (∀ e' ∈ s.experts, e'.ID = e.ID → e' = e) →
        (preloadExpert s b.ExpertID).UserID = e.UserID)) ∧
    (∀ emailOk' : Booking → Bool,
      (l.foldl (Worker.remindOne emailOk' now) (s, [])).1 =
        (l.foldl (Worker.remindOne emailOk now) (s, [])).1) ∧
    (l.foldl (Worker.remindOne emailOk now) (s, [])).2 =
      (l.filter (fun b => !emailOk b)).map (fun b => b.ID) ∧
    Worker.processReminders s now emailOk =
      (Worker.reminderQuery s now).foldl (Worker.remindOne emailOk now) (s, []) := by
  refine ⟨⟨reminderRecords s now s.nextNotificationID l, ?_, ?_, ?_, ?_⟩, ?_, ?_, rfl⟩
  · rw [remindLoop_store]
  · exact reminderRecords_addressees s now _ l
  · have := congrArg List.length (reminderRecords_addressees s now s.nextNotificationID l)
    rw [List.length_map] at this
    rw [this]
    clear this
    induction l with
    | nil => rfl
    | cons b rest ih =>
      simp only [List.flatMap_cons, List.length_append, List.length_cons, List.length_nil, ih]
      omega
  · intro e he b _ hid huniq
    unfold preloadExpert firstExpert
    have hsome : (s.experts.find? (fun x => x.ID == b.ExpertID)).isSome = true := by
      rw [List.find?_isSome]
      exact ⟨e, he, by simp [hid]⟩
    obtain ⟨e', he'⟩ := Option.isSome_iff_exists.mp hsome
    rw [he', Option.getD_some]
    have hid' : e'.ID = b.ExpertID := by simpa using List.find?_some he'
    rw [huniq e' (List.mem_of_find?_eq_some he') (by rw [hid', hid])]
  · intro emailOk'
    rw [remindLoop_store, remindLoop_store]
  · rw [remindLoop_log]
    simp

/-- The rows the reminder query selects at time `now`: the confirmed bookings whose
start lies in the closed window from `now + 60 min` to `now + 70 min`. -/
theorem mem_reminderQuery (s : Store) (now : Int) (b : Booking) :
    b ∈ Worker.reminderQuery s now ↔
      (b ∈ s.bookings ∧ b.Status = confirmed ∧ now + 60 * minute ≤ b.StartTime ∧
        b.StartTime ≤ now + 70 * minute) := by
  simp only [Worker.reminderQuery, List.mem_filter, Bool.and_eq_true, decide_eq_true_eq,
    beq_iff_eq]
  constructor
  · rintro ⟨hb, ⟨h₁, h₂⟩, h₃⟩
    exact ⟨hb, h₃, h₁, by omega⟩
  · rintro ⟨hb, h₃, h₁, h₂⟩
    exact ⟨hb, ⟨h₁, by omega⟩, h₃⟩

/-- The store after a reminder pass: the records of the selected rows are appended,
and nothing else changes. -/
theorem processReminders_store (s : Store) (now : Int) (emailOk : Booking → Bool) :
    (Worker.processReminders s now emailOk).1 =
      { s with
        notifications := s.notifications ++
          reminderRecords s now s.nextNotificationID (Worker.reminderQuery s now),
        nextNotificationID := s.nextNotificationID + 2 * (Worker.reminderQuery s now).length } := by
  unfold Worker.processReminders
  rw [remindLoop_store]

/-- C18 as stated fails: booking 1 is confirmed and starts at 11:00; the reminder pass
run at 9:50, for which 11:00 is exactly `now + 70 min`, appends a reminder record for
user 7 and one for user 20, the account of the expert. -/
theorem reminder_sent_at_upper_bound :
    storeWithConfirmedBooking.bookings.map (fun b => (b.ID, b.Status, b.StartTime)) =
      [(1, confirmed, 39600)] ∧
    (35400 : Int) + 70 * minute = 39600 ∧
    storeWithConfirmedBooking.notifications = [] ∧
    (Worker.processReminders storeWithConfirmedBooking 35400 (fun _ => true)).1.notifications.map
      (fun n => (n.UserID, n.NotificationType)) = [(7, reminderType), (20, reminderType)] := by
  decide

/-- C18 as amended: the reminder pass run at time `now` selects exactly the confirmed
bookings whose start lies in the closed window `now + 60 min <= start <= now + 70 min`,
a start exactly at `now + 70 min` included; the records it appends are those of the
selected bookings, one for the user and one for the expert's account each, so a
booking that starts outside the window or is not confirmed receives none. -/
theorem reminder_window_is_closed (s : Store) (now : Int) (emailOk : Booking → Bool) :
    (∀ b : Booking, b ∈ Worker.reminderQuery s now ↔
      (b ∈ s.bookings ∧ b.Status = confirmed ∧ now + 60 * minute ≤ b.StartTime ∧
        b.StartTime ≤ now + 70 * minute)) ∧
    (∃ recs : List Notification,
      (Worker.processReminders s now emailOk).1.notifications = s.notifications ++ recs ∧
      recs.map (fun n => (n.UserID, n.NotificationType)) =
        (Worker.reminderQuery s now).flatMap (fun b =>
          [(b.UserID, reminderType), ((preloadExpert s b.ExpertID).UserID, reminderType)])) ∧
    ((∀ b ∈ s.bookings, ¬ (b.Status = confirmed ∧ now + 60 * minute ≤ b.StartTime ∧
        b.StartTime ≤ now + 70 * minute)) →
      (Worker.processReminders s now emailOk).1.notifications = s.notifications) := by
  refine ⟨mem_reminderQuery s now,
    ⟨reminderRecords s now s.nextNotificationID (Worker.reminderQuery s now), ?_,
      reminderRecords_addressees s now _ _⟩, ?_⟩
  · rw [processReminders_store]
  · intro hnone
    have hnil : Worker.reminderQuery s now = [] := by
      rw [List.eq_nil_iff_forall_not_mem]
      intro b hb
      have := (mem_reminderQuery s now b).mp hb
      exact hnone b this.1 this.2
    rw [processReminders_store, hnil]
    simp [reminderRecords]

/-- One reminder pass adds at least one reminder record for the user of every
selected booking and at least one for the account of its expert. -/
theorem reminderCount_after_pass (s : Store) (now : Int) (emailOk : Booking → Bool)
    (b : Booking) (hb : b ∈ Worker.reminderQuery s now) :
    reminderCount (Worker.processReminders s now emailOk).1 b.UserID ≥
      reminderCount s b.UserID + 1 ∧
    reminderCount (Worker.processReminders s now emailOk).1 (preloadExpert s b.ExpertID).UserID ≥
      reminderCount s (preloadExpert s b.ExpertID).UserID + 1 := by
  have hadd := reminderRecords_addressees s now s.nextNotificationID (Worker.reminderQuery s now)
  have key : ∀ u : Nat,
      (u, reminderType) ∈ (Worker.reminderQuery s now).flatMap (fun b =>
        [(b.UserID, reminderType), ((preloadExpert s b.ExpertID).UserID, reminderType)]) →
      reminderCount (Worker.processReminders s now emailOk).1 u ≥ reminderCount s u + 1 := by
    intro u hu
    rw [← hadd, List.mem_map] at hu
    obtain ⟨n, hn, hpair⟩ := hu
    simp only [Prod.mk.injEq] at hpair
    unfold reminderCount
    rw [processReminders_store]
    simp only [List.filter_append, List.length_append]
    have hpos : 0 < ((reminderRecords s now s.nextNotificationID
        (Worker.reminderQuery s now)).filter
        (fun n => n.UserID == u && n.NotificationType == reminderType)).length := by
      apply List.length_pos_of_mem (a := n)
      rw [List.mem_filter]
      exact ⟨hn, by simp [hpair.1, hpair.2]⟩
    omega
  constructor
  · apply key
    rw [List.mem_flatMap]
    exact ⟨b, hb, by simp⟩
  · apply key
    rw [List.mem_flatMap]
    exact ⟨b, hb, by simp⟩

/-- C19 as stated fails: booking 1 is confirmed and starts at 11:00; reminder passes
at 9:55 and at 10:00 both have 11:00 in their window, and after the two runs user 7
and user 20, the account of the expert, each have two reminder records. -/
theorem reminder_sent_twice :
    ((35700 : Int) + 60 * minute ≤ 39600 ∧ (39600 : Int) < 35700 + 70 * minute) ∧
    ((36000 : Int) + 60 * minute ≤ 39600 ∧ (39600 : Int) < 36000 + 70 * minute) ∧
    reminderCount storeWithConfirmedBooking 7 = 0 ∧
    reminderCount storeWithConfirmedBooking 20 = 0 ∧
    reminderCount (Worker.processReminders
      (Worker.processReminders storeWithConfirmedBooking 35700 (fun _ => true)).1 36000
      (fun _ => true)).1 7 = 2 ∧
    reminderCount (Worker.processReminders
      (Worker.processReminders storeWithConfirmedBooking 35700 (fun _ => true)).1 36000
      (fun _ => true)).1 20 = 2 := by
  decide

/-- C19 as amended: the reminder pass keeps no trace of the reminders it has sent.
Every run whose window `now + 60 min <= start <= now + 70 min` contains the start of a
confirmed booking appends a reminder record for the booking's user and one for the
account of its expert, so after two such runs at times `t₁` and `t₂` each of the two
has at least two reminder records more than before. -/
theorem reminder_pass_repeats (s : Store) (t₁ t₂ : Int) (ok₁ ok₂ : Booking → Bool)
    (b : Booking) (hb : b ∈ s.bookings) (hc : b.Status = confirmed)
    (h₁ : t₁ + 60 * minute ≤ b.StartTime ∧ b.StartTime ≤ t₁ + 70 * minute)
    (h₂ : t₂ + 60 * minute ≤ b.StartTime ∧ b.StartTime ≤ t₂ + 70 * minute) :
    reminderCount (Worker.processReminders (Worker.processReminders s t₁ ok₁).1 t₂ ok₂).1
        b.UserID ≥ reminderCount s b.UserID + 2 ∧
    reminderCount (Worker.processReminders (Worker.processReminders s t₁ ok₁).1 t₂ ok₂).1
        (preloadExpert s b.ExpertID).UserID ≥
      reminderCount s (preloadExpert s b.ExpertID).UserID + 2 := by
  have hq₁ : b ∈ Worker.reminderQuery s t₁ :=
    (mem_reminderQuery s t₁ b).mpr ⟨hb, hc, h₁.1, h₁.2⟩
  have hbk : (Worker.processReminders s t₁ ok₁).1.bookings = s.bookings := by
    rw [processReminders_store]
  have hex : preloadExpert (Worker.processReminders s t₁ ok₁).1 b.ExpertID =
      preloadExpert s b.ExpertID := by
    rw [processReminders_store]
    rfl
  have hq₂ : b ∈ Worker.reminderQuery (Worker.processReminders s t₁ ok₁).1 t₂ :=
    (mem_reminderQuery _ t₂ b).mpr ⟨by rw [hbk]; exact hb, hc, h₂.1, h₂.2⟩
  have c₁ := reminderCount_after_pass s t₁ ok₁ b hq₁
  have c₂ := reminderCount_after_pass (Worker.processReminders s t₁ ok₁).1 t₂ ok₂ b hq₂
  rw [hex] at c₂
  constructor
  · have := c₁.1
    have := c₂.1
    omega
  · have := c₁.2
    have := c₂.2
    omega

/-- C19 as amended, at a concrete input: reminder passes at 9:55 and 10:00 over the
confirmed booking 1 of user 7, which starts at 11:00. -/
theorem reminder_pass_repeats_witness :
    reminderCount (Worker.processReminders
      (Worker.processReminders storeWithConfirmedBooking 35700 (fun _ => true)).1 36000
      (fun _ => false)).1 7 ≥ reminderCount storeWithConfirmedBooking 7 + 2 :=
  (reminder_pass_repeats storeWithConfirmedBooking 35700 36000 (fun _ => true) (fun _ => false)
    { ID := 1, UserID := 7, ExpertID := 1, StartTime := 39600, EndTime := 43200,
      Status := confirmed, Notes := "", Format := "online", CancelReason := "" }
    (by decide) (by decide) (by decide) (by decide)).1

/-! ## The slot cache -/

/-- The database query of `GetAvailableSlots`: exactly the slots of the expert with
`is_booked = false` and `start_time > now`. -/
theorem mem_queryFreeSlots (s : Store) (E : Nat) (now : Int) (sl : AvailableSlot) :
    sl ∈ queryFreeSlots s E now ↔
      (sl ∈ s.slots ∧ sl.ExpertID = E ∧ sl.IsBooked = false ∧ sl.StartTime > now) := by
  unfold queryFreeSlots
  rw [(List.perm_insertionSort _ _).mem_iff, List.mem_filter]
  simp only [Bool.and_eq_true, beq_iff_eq, decide_eq_true_eq]
  constructor
  · rintro ⟨h, ⟨h₁, h₂⟩, h₃⟩
    exact ⟨h, h₁, h₂, h₃⟩
  · rintro ⟨h, h₁, h₂, h₃⟩
    exact ⟨h, ⟨h₁, h₂⟩, h₃⟩

/-- The database query of `GetAvailableSlots` returns its rows in ascending order of
`start_time`. -/
theorem sorted_queryFreeSlots (s : Store) (E : Nat) (now : Int) :
    (queryFreeSlots s E now).Sorted (fun a b => a.StartTime ≤ b.StartTime) := by
  haveI : IsTotal AvailableSlot (fun a b => a.StartTime ≤ b.StartTime) :=
    ⟨fun a b => le_total a.StartTime b.StartTime⟩
  haveI : IsTrans AvailableSlot (fun a b => a.StartTime ≤ b.StartTime) :=
    ⟨fun _ _ _ hab hbc => le_trans hab hbc⟩
  unfold queryFreeSlots
  exact List.sorted_insertionSort _ _

/-- Reading a key right after it was set returns the value until it expires. -/
theorem cacheGet_cacheSet (cache : List CacheEntry) (entry : CacheEntry) (now : Int)
    (h : now < entry.expiresAt) :
    cacheGet (cacheSet cache entry) entry.expertID now = some entry.slots := by
  simp [cacheGet, cacheSet, h]

/-- C15 as stated fails. After the successful `CreateAvailableSlot` of expert 1 at
time 0 the cache entry of expert 1 is present, not absent. And after user 7 has booked
that slot, which is marked booked in the registry, the next `GetAvailableSlots` for
expert 1, one second later, still returns it as a free slot. -/
theorem cache_is_stale_after_booking :
    cacheGet storeWithInnerSlot.cache 1 1 =
      some [{ ID := 1, ExpertID := 1, StartTime := 39600, EndTime := 43200, IsBooked := false }] ∧
    storeWithInnerBooking.slots.filter (fun sl => sl.ExpertID == 1) =
      [{ ID := 1, ExpertID := 1, StartTime := 39600, EndTime := 43200, IsBooked := true }] ∧
    (ExpertService.GetAvailableSlots storeWithInnerBooking 1 1).1 =
      [{ ID := 1, ExpertID := 1, StartTime := 39600, EndTime := 43200, IsBooked := false }] := by
  decide

/-- C15 as amended: a successful `CreateAvailableSlot` for an expert at time `now`
does not remove the expert's cache entry but rewrites it: until `now + 1 hour` the
entry holds exactly the registry's slots of that expert with `isBooked = false` and
`start > now`, in ascending start order, and `GetAvailableSlots` returns that list
and leaves the store alone. On a cache miss `GetAvailableSlots` at time `t` returns
exactly the registry's slots of the expert with `isBooked = false` and `start > t`,
in ascending start order. -/
theorem createAvailableSlot_refreshes_cache (s s' : Store) (E : Nat) (req : CreateSlotRequest)
    (now : Int) (h : ExpertService.CreateAvailableSlot s E req now = .ok s') :
    (∀ t : Int, t < now + hour →
      cacheGet s'.cache E t = some (queryFreeSlots s' E now) ∧
      ExpertService.GetAvailableSlots s' E t = (queryFreeSlots s' E now, s')) ∧
    (∀ sl : AvailableSlot, sl ∈ queryFreeSlots s' E now ↔
      (sl ∈ s'.slots ∧ sl.ExpertID = E ∧ sl.IsBooked = false ∧ sl.StartTime > now)) ∧
    (queryFreeSlots s' E now).Sorted (fun a b => a.StartTime ≤ b.StartTime) ∧
    (∀ (s₀ : Store) (t : Int), cacheGet s₀.cache E t = none →
      (ExpertService.GetAvailableSlots s₀ E t).1 = queryFreeSlots s₀ E t ∧
      (∀ sl : AvailableSlot, sl ∈ (ExpertService.GetAvailableSlots s₀ E t).1 ↔
        (sl ∈ s₀.slots ∧ sl.ExpertID = E ∧ sl.IsBooked = false ∧ sl.StartTime > t)) ∧
      ((ExpertService.GetAvailableSlots s₀ E t).1).Sorted
        (fun a b => a.StartTime ≤ b.StartTime)) := by
  have hs : ∃ s₁ : Store, s' = ExpertService.updateAvailableSlotsCache s₁ E now := by
    unfold ExpertService.CreateAvailableSlot at h
    split at h
    · cases h
    · simp only [] at h
      split at h
      · cases h
      · cases h
        exact ⟨_, rfl⟩
  obtain ⟨s₁, hs₁⟩ := hs
  have hq : queryFreeSlots s' E now = queryFreeSlots s₁ E now := by
    rw [hs₁]; rfl
  have hget : ∀ t : Int, t < now + hour →
      cacheGet s'.cache E t = some (queryFreeSlots s' E now) := by
    intro t ht
    rw [hq, hs₁]
    exact cacheGet_cacheSet s₁.cache
      { expertID := E, slots := queryFreeSlots s₁ E now, expiresAt := now + hour } t ht
  refine ⟨?_, mem_queryFreeSlots s' E now, sorted_queryFreeSlots s' E now, ?_⟩
  · intro t ht
    refine ⟨hget t ht, ?_⟩
    unfold ExpertService.GetAvailableSlots
    rw [hget t ht]
  · intro s₀ t hmiss
    have hres : (ExpertService.GetAvailableSlots s₀ E t).1 = queryFreeSlots s₀ E t := by
      unfold ExpertService.GetAvailableSlots
      rw [hmiss]
    refine ⟨hres, ?_, ?_⟩
    · intro sl
      rw [hres]
      exact mem_queryFreeSlots s₀ E t sl
    · rw [hres]
      exact sorted_queryFreeSlots s₀ E t

/-- C15 as amended, at a concrete input: half an hour after expert 1 published 11:00
to 12:00 at time 0, the cache still answers with the list written at time 0. -/
theorem createAvailableSlot_refreshes_cache_witness :
    cacheGet storeWithInnerSlot.cache 1 1800 = some (queryFreeSlots storeWithInnerSlot 1 0) :=
  ((createAvailableSlot_refreshes_cache (emptyStore [expertOne]) storeWithInnerSlot 1
    slotElevenToTwelve 0 (by rfl)).1 1800 (by decide)).1

/-! ## A worker tick and the list of free slots -/

/-- The cache is not touched by the loop of `processExpiredBookings`. -/
theorem expireLoop_cache (l : List Booking) (s : Store) :
    (l.foldl Worker.expireOne s).cache = s.cache := by
  induction l generalizing s with
  | nil => rfl
  | cons e t ih => rw [List.foldl_cons, ih]; rfl

/-- The bookings table after a tick is the one the expiry pass alone would leave. -/
theorem tick_bookings (s : Store) (t₁ t₂ t₃ : Int) (emailOk : Booking → Bool) :
    (Worker.tick s t₁ t₂ t₃ emailOk).bookings = (Worker.processExpiredBookings s t₂).bookings := by
  simp only [Worker.tick, Worker.cleanupOldNotifications, Worker.processExpiredBookings,
    expireLoop_bookings, processReminders_store]

/-- The slots table after a tick is the one the expiry pass alone would leave. -/
theorem tick_slots (s : Store) (t₁ t₂ t₃ : Int) (emailOk : Booking → Bool) :
    (Worker.tick s t₁ t₂ t₃ emailOk).slots = (Worker.processExpiredBookings s t₂).slots := by
  simp only [Worker.tick, Worker.cleanupOldNotifications, Worker.processExpiredBookings,
    expireLoop_slots, processReminders_store]

/-- C17 as stated fails: booking 1 of 11:00 to 12:00 is pending and its slot is
booked; after the tick at 14:00 the booking is missed and the slot is free, yet
`GetAvailableSlots` for expert 1 returns no slot, since the slot starts before 14:00. -/
theorem freed_slot_is_not_listed :
    storeWithInnerBooking.bookings.map (fun b => (b.ID, b.Status, b.EndTime)) =
      [(1, pending, 43200)] ∧
    storeWithInnerBooking.slots.filter (fun sl => sl.ExpertID == 1) =
      [{ ID := 1, ExpertID := 1, StartTime := 39600, EndTime := 43200, IsBooked := true }] ∧
    (Worker.tick storeWithInnerBooking 50400 50400 50400 (fun _ => true)).bookings.map
      (fun b => (b.ID, b.Status)) = [(1, missed)] ∧
    (Worker.tick storeWithInnerBooking 50400 50400 50400 (fun _ => true)).slots.filter
      (fun sl => sl.ExpertID == 1) =
      [{ ID := 1, ExpertID := 1, StartTime := 39600, EndTime := 43200, IsBooked := false }] ∧
    (ExpertService.GetAvailableSlots
      (Worker.tick storeWithInnerBooking 50400 50400 50400 (fun _ => true)) 1 50400).1 = [] := by
  decide

/-- C17 as amended: on a store with unique booking ids, for every pending booking
with `start <= end` whose end lies before the clock reading `t₂` of the expiry pass,
and every slot of its expert that contains its interval: after the tick the booking
is `missed`, in its place, and the slot is free; but the list that `GetAvailableSlots`
reads from the registry at any time from `t₂` on holds only slots that start later
than that time, so the freed slot, which starts no later than the ended booking, is
not in it. -/
theorem tick_frees_slot_unlisted (s : Store) (t₁ t₂ t₃ : Int) (emailOk : Booking → Bool)
    (hids : (s.bookings.map (fun b => b.ID)).Nodup) (i : Nat) (b : Booking)
    (hb : s.bookings[i]? = some b) (hpend : b.Status = pending)
    (hwf : b.StartTime ≤ b.EndTime) (hend : b.EndTime < t₂)
    (sl : AvailableSlot) (hsl : sl ∈ s.slots) (hE : sl.ExpertID = b.ExpertID)
    (hS : sl.StartTime ≤ b.StartTime) (hT : sl.EndTime ≥ b.EndTime) :
    (Worker.tick s t₁ t₂ t₃ emailOk).bookings[i]? = some { b with Status := missed } ∧
    { sl with IsBooked := false } ∈ (Worker.tick s t₁ t₂ t₃ emailOk).slots ∧
    (∀ t : Int, t₂ ≤ t →
      cacheGet (Worker.tick s t₁ t₂ t₃ emailOk).cache b.ExpertID t = none →
      (∀ x ∈ (ExpertService.GetAvailableSlots (Worker.tick s t₁ t₂ t₃ emailOk) b.ExpertID t).1,
        x.StartTime > t) ∧
      { sl with IsBooked := false } ∉
        (ExpertService.GetAvailableSlots (Worker.tick s t₁ t₂ t₃ emailOk) b.ExpertID t).1) := by
  have hbmem : b ∈ s.bookings := List.getElem?_mem hb
  refine ⟨?_, ?_, ?_⟩
  · rw [tick_bookings, processExpiredBookings_bookings s t₂ hids, List.getElem?_map, hb]
    simp only [Option.map_some', if_pos (And.intro hend hpend)]
  · rw [tick_slots]
    have hslots : (Worker.processExpiredBookings s t₂).slots = _ :=
      expireLoop_slots
        (s.bookings.filter (fun b => decide (b.EndTime < t₂) && b.Status == pending)) s
    rw [hslots, List.mem_map]
    refine ⟨sl, hsl, ?_⟩
    have hany : (s.bookings.filter (fun b => decide (b.EndTime < t₂) && b.Status == pending)).any
        (fun e => sl.ExpertID == e.ExpertID && decide (sl.StartTime ≤ e.StartTime) &&
          decide (sl.EndTime ≥ e.EndTime)) = true := by
      rw [List.any_eq_true]
      refine ⟨b, ?_, by simp [hE, hS, hT]⟩
      rw [List.mem_filter]
      exact ⟨hbmem, by simp [hpend, hend]⟩
    rw [if_pos hany]
  · intro t ht hmiss
    have hres : (ExpertService.GetAvailableSlots (Worker.tick s t₁ t₂ t₃ emailOk)
        b.ExpertID t).1 = queryFreeSlots (Worker.tick s t₁ t₂ t₃ emailOk) b.ExpertID t := by
      unfold ExpertService.GetAvailableSlots
      rw [hmiss]
    rw [hres]
    have hall : ∀ x ∈ queryFreeSlots (Worker.tick s t₁ t₂ t₃ emailOk) b.ExpertID t,
        x.StartTime > t := fun x hx => ((mem_queryFreeSlots _ _ _ x).mp hx).2.2.2
    refine ⟨hall, ?_⟩
    intro hin
    have := hall _ hin
    simp only at this
    omega

/-- C17 as amended, at a concrete input: the tick at 14:00 over the pending booking 1
of 11:00 to 12:00 and its slot. -/
theorem tick_frees_slot_unlisted_witness :
    (Worker.tick storeWithInnerBooking 50400 50400 50400 (fun _ => true)).bookings[0]? =
      some { ID := 1, UserID := 7, ExpertID := 1, StartTime := 39600, EndTime := 43200,
             Status := missed, Notes := "", Format := "online", CancelReason := "" } ∧
    ({ ID := 1, ExpertID := 1, StartTime := 39600, EndTime := 43200, IsBooked := false } :
      AvailableSlot) ∈ (Worker.tick storeWithInnerBooking 50400 50400 50400 (fun _ => true)).slots :=
  match tick_frees_slot_unlisted storeWithInnerBooking 50400 50400 50400 (fun _ => true)
    (by decide) 0
    { ID := 1, UserID := 7, ExpertID := 1, StartTime := 39600, EndTime := 43200,
      Status := pending, Notes := "", Format := "online", CancelReason := "" }
    (by decide) (by decide) (by decide) (by decide)
    { ID := 1, ExpertID := 1, StartTime := 39600, EndTime := 43200, IsBooked := true }
    (by decide) (by decide) (by decide) (by decide) with
  | ⟨h₁, h₂, _⟩ => ⟨h₁, h₂⟩

/-! ## A slot is held by one booking at a time -/

/-- C11 as stated fails, with the four calls alone. After `cancelTwiceOps` the slot
10:00 to 12:00 contains the pending bookings 2 (10:00 to 11:00) and 3 (11:00 to
12:00): the second cancellation of the cancelled booking 1 freed the slot that
booking 2 was holding. After `emptyIntervalOps` the slot 10:00 to 12:00 contains the
pending booking 10:00 to 11:00 and the pending empty booking at 12:00. After
`doubleBookingOps` the slot 10:00 to 13:00 contains both pending bookings. -/
theorem slotHeldOnce_fails :
    ¬ SlotHeldOnce (run (emptyStore [expertOne]) cancelTwiceOps) ∧
    ¬ SlotHeldOnce (run (emptyStore [expertOne]) emptyIntervalOps) ∧
    ¬ SlotHeldOnce (run (emptyStore [expertOne]) doubleBookingOps) := by
  decide

/-- Two slots that contain the same non-empty booking interval belong to the same
expert and overlap. -/
theorem overlap_of_common_booking {a c : AvailableSlot} {x : Booking}
    (ha : slotContains a x) (hc : slotContains c x) (hx : x.StartTime < x.EndTime) :
    a.ExpertID = c.ExpertID ∧ specOverlap a.StartTime a.EndTime c.StartTime c.EndTime := by
  obtain ⟨ha₁, ha₂, ha₃⟩ := ha
  obtain ⟨hc₁, hc₂, hc₃⟩ := hc
  refine ⟨by rw [ha₁, hc₁], ?_⟩
  unfold specOverlap
  constructor <;> omega

/-- An interval that overlaps the request without being flagged by the conflict
condition lies strictly inside the request. -/
theorem enclosed_of_overlap_unflagged {a b c d : Int} (hov : specOverlap a b c d)
    (hc : conflictCondition a b c d = false) : c < a ∧ b < d := by
  unfold specOverlap at hov
  rw [Bool.eq_false_iff] at hc
  simp only [conflictCondition, ne_eq, Bool.or_eq_true, Bool.and_eq_true, decide_eq_true_eq,
    not_or, not_and] at hc
  constructor <;> omega

/-- Containment in a slot only reads the expert and the interval of the slot. -/
theorem slotContains_congr {sl sl' : AvailableSlot} (x : Booking)
    (hE : sl'.ExpertID = sl.ExpertID) (hS : sl'.StartTime = sl.StartTime)
    (hT : sl'.EndTime = sl.EndTime) : slotContains sl' x ↔ slotContains sl x := by
  unfold slotContains
  rw [hE, hS, hT]

/-- The slot part of the invariant survives an update that changes only the
`IsBooked` column of slots and only takes bookings out of the holding statuses,
provided no slot is freed while a holding booking remains in it. -/
theorem slotCore_update {slots : List AvailableSlot} {bookings : List Booking} {next : Nat}
    (h : AvailableSlot → AvailableSlot) (g : Booking → Booking)
    (hh : ∀ sl, (h sl).ID = sl.ID ∧ (h sl).ExpertID = sl.ExpertID ∧
      (h sl).StartTime = sl.StartTime ∧ (h sl).EndTime = sl.EndTime)
    (hg : ∀ x ∈ bookings, live (g x) → g x = x)
    (hfree : ∀ sl ∈ slots, (h sl).IsBooked = false →
      sl.IsBooked = false ∨ ∀ x ∈ bookings, live (g x) → ¬ slotContains sl x)
    (core : SlotCore slots bookings next) :
    SlotCore (slots.map h) (bookings.map g) next := by
  obtain ⟨c₁, c₂, c₃, c₄, c₅, c₆, c₇⟩ := core
  have hcont : ∀ sl x, slotContains (h sl) x ↔ slotContains sl x := fun sl x =>
    slotContains_congr x (hh sl).2.1 (hh sl).2.2.1 (hh sl).2.2.2
  refine ⟨?_, ?_, ?_, ?_, ?_, ?_, ?_⟩
  · intro sl' hsl'
    obtain ⟨sl, hsl, rfl⟩ := List.mem_map.mp hsl'
    rw [(hh sl).1]
    exact c₁ sl hsl
  · intro a' ha' b' hb' hid
    obtain ⟨a, ha, rfl⟩ := List.mem_map.mp ha'
    obtain ⟨b, hb, rfl⟩ := List.mem_map.mp hb'
    rw [(hh a).1, (hh b).1] at hid
    rw [c₂ a ha b hb hid]
  · intro a' ha' b' hb' hid hE
    obtain ⟨a, ha, rfl⟩ := List.mem_map.mp ha'
    obtain ⟨b, hb, rfl⟩ := List.mem_map.mp hb'
    rw [(hh a).1, (hh b).1] at hid
    rw [(hh a).2.1, (hh b).2.1] at hE
    rw [(hh a).2.2.1, (hh a).2.2.2, (hh b).2.2.1, (hh b).2.2.2]
    exact c₃ a ha b hb hid hE
  · intro b' hb' hlive
    obtain ⟨x, hx, rfl⟩ := List.mem_map.mp hb'
    have hgx := hg x hx hlive
    rw [hgx] at hlive ⊢
    exact c₄ x hx hlive
  · intro b' hb' hlive
    obtain ⟨x, hx, rfl⟩ := List.mem_map.mp hb'
    have hgx := hg x hx hlive
    rw [hgx] at hlive ⊢
    obtain ⟨sl, hsl, hc⟩ := c₅ x hx hlive
    exact ⟨h sl, List.mem_map_of_mem h hsl, (hcont sl x).mpr hc⟩
  · intro sl' hsl' hfr b' hb' hlive hc
    obtain ⟨sl, hsl, rfl⟩ := List.mem_map.mp hsl'
    obtain ⟨x, hx, rfl⟩ := List.mem_map.mp hb'
    have hgx := hg x hx hlive
    have hc' : slotContains sl x := by
      rw [hgx] at hc
      exact (hcont sl x).mp hc
    rcases hfree sl hsl hfr with hf | hf
    · rw [hgx] at hlive
      exact c₆ sl hsl hf x hx hlive hc'
    · exact hf x hx hlive hc'
  · intro sl' hsl' a' ha' b' hb' hla hlb hca hcb
    obtain ⟨sl, hsl, rfl⟩ := List.mem_map.mp hsl'
    obtain ⟨a, ha, rfl⟩ := List.mem_map.mp ha'
    obtain ⟨b, hb, rfl⟩ := List.mem_map.mp hb'
    have hga := hg a ha hla
    have hgb := hg b hb hlb
    rw [hga] at hla hca ⊢
    rw [hgb] at hlb hcb ⊢
    exact c₇ sl hsl a ha b hb hla hlb ((hcont sl a).mp hca) ((hcont sl b).mp hcb)

/-- The slot part of the invariant survives the insertion of a booking with start
before end into a booked slot that contained no holding booking. -/
theorem slotCore_addBooking {slots : List AvailableSlot} {bookings : List Booking} {next : Nat}
    (core : SlotCore slots bookings next) (M : AvailableSlot) (n : Booking)
    (hM : M ∈ slots) (hbooked : M.IsBooked = true) (hMn : slotContains M n)
    (hn : n.StartTime < n.EndTime)
    (hempty : ∀ b ∈ bookings, live b → ¬ slotContains M b) :
    SlotCore slots (bookings ++ [n]) next := by
  obtain ⟨c₁, c₂, c₃, c₄, c₅, c₆, c₇⟩ := core
  have hother : ∀ sl ∈ slots, slotContains sl n → sl = M := by
    intro sl hsl hc
    by_cases hid : sl.ID = M.ID
    · exact c₂ sl hsl M hM hid
    · obtain ⟨hE, hov⟩ := overlap_of_common_booking hc hMn hn
      exact absurd hov (c₃ sl hsl M hM hid hE)
  refine ⟨c₁, c₂, c₃, ?_, ?_, ?_, ?_⟩
  · intro b hb hlive
    rcases List.mem_append.mp hb with hb | hb
    · exact c₄ b hb hlive
    · rw [List.mem_singleton] at hb
      rw [hb]; exact hn
  · intro b hb hlive
    rcases List.mem_append.mp hb with hb | hb
    · exact c₅ b hb hlive
    · rw [List.mem_singleton] at hb
      rw [hb]; exact ⟨M, hM, hMn⟩
  · intro sl hsl hfr b hb hlive hc
    rcases List.mem_append.mp hb with hb | hb
    · exact c₆ sl hsl hfr b hb hlive hc
    · rw [List.mem_singleton] at hb
      rw [hb] at hc
      have := hother sl hsl hc
      rw [this, hbooked] at hfr
      cases hfr
  · intro sl hsl a ha b hb hla hlb hca hcb
    rcases List.mem_append.mp ha with ha | ha <;> rcases List.mem_append.mp hb with hb | hb
    · exact c₇ sl hsl a ha b hb hla hlb hca hcb
    · rw [List.mem_singleton] at hb
      rw [hb] at hcb
      rw [hother sl hsl hcb] at hca
      exact absurd hca (hempty a ha hla)
    · rw [List.mem_singleton] at ha
      rw [ha] at hca
      rw [hother sl hsl hca] at hcb
      exact absurd hcb (hempty b hb hlb)
    · rw [List.mem_singleton] at ha hb
      rw [ha, hb]

/-- The slot part of the invariant survives the insertion of a free slot that
overlaps no slot of its expert. -/
theorem slotCore_addSlot {slots : List AvailableSlot} {bookings : List Booking} {next : Nat}
    (core : SlotCore slots bookings next) (N : AvailableSlot) (hid : N.ID = next)
    (hdisj : ∀ sl ∈ slots, sl.ExpertID = N.ExpertID →
      ¬ specOverlap sl.StartTime sl.EndTime N.StartTime N.EndTime) :
    SlotCore (slots ++ [N]) bookings (next + 1) := by
  obtain ⟨c₁, c₂, c₃, c₄, c₅, c₆, c₇⟩ := core
  have hnone : ∀ b ∈ bookings, live b → ¬ slotContains N b := by
    intro b hb hlive hc
    obtain ⟨sl, hsl, hslc⟩ := c₅ b hb hlive
    obtain ⟨hE, hov⟩ := overlap_of_common_booking hslc hc (c₄ b hb hlive)
    exact hdisj sl hsl hE hov
  refine ⟨?_, ?_, ?_, c₄, ?_, ?_, ?_⟩
  · intro sl hsl
    rcases List.mem_append.mp hsl with hsl | hsl
    · exact Nat.lt_succ_of_lt (c₁ sl hsl)
    · rw [List.mem_singleton] at hsl
      rw [hsl, hid]; exact Nat.lt_succ_self _
  · intro a ha b hb hab
    rcases List.mem_append.mp ha with ha | ha <;> rcases List.mem_append.mp hb with hb | hb
    · exact c₂ a ha b hb hab
    · rw [List.mem_singleton] at hb
      have := c₁ a ha
      rw [hb, hid] at hab
      omega
    · rw [List.mem_singleton] at ha
      have := c₁ b hb
      rw [ha, hid] at hab
      omega
    · rw [List.mem_singleton] at ha hb
      rw [ha, hb]
  · intro a ha b hb hab hE hov
    rcases List.mem_append.mp ha with ha | ha <;> rcases List.mem_append.mp hb with hb | hb
    · exact c₃ a ha b hb hab hE hov
    · rw [List.mem_singleton] at hb
      rw [hb] at hE hov
      exact hdisj a ha hE hov
    · rw [List.mem_singleton] at ha
      rw [ha] at hE hov
      unfold specOverlap at hov
      exact hdisj b hb hE.symm ⟨hov.2, hov.1⟩
    · rw [List.mem_singleton] at ha hb
      rw [ha, hb] at hab
      exact hab rfl
  · intro b hb hlive
    obtain ⟨sl, hsl, hc⟩ := c₅ b hb hlive
    exact ⟨sl, List.mem_append_left _ hsl, hc⟩
  · intro sl hsl hfr b hb hlive hc
    rcases List.mem_append.mp hsl with hsl | hsl
    · exact c₆ sl hsl hfr b hb hlive hc
    · rw [List.mem_singleton] at hsl
      rw [hsl] at hc
      exact hnone b hb hlive hc
  · intro sl hsl a ha b hb hla hlb hca hcb
    rcases List.mem_append.mp hsl with hsl | hsl
    · exact c₇ sl hsl a ha b hb hla hlb hca hcb
    · rw [List.mem_singleton] at hsl
      rw [hsl] at hca
      exact absurd hca (hnone a ha hla)

/-- The slot id counter is not touched by the loop of `processExpiredBookings`. -/
theorem expireLoop_nextSlotID (l : List Booking) (s : Store) :
    (l.foldl Worker.expireOne s).nextSlotID = s.nextSlotID := by
  induction l generalizing s with
  | nil => rfl
  | cons e t ih => rw [List.foldl_cons, ih]; rfl

/-- A tidy call reopens no closed booking. -/
theorem keepsClosed_of_tidy {s : Store} {op : Op} (h : op.tidy s) : op.keepsClosed s := by
  cases op with
  | updateBookingStatus bookingID status => exact absurd h id
  | createAvailableSlot _ _ _ => trivial
  | createBooking _ _ => trivial
  | cancelBooking _ _ _ _ => trivial
  | expiryPass _ => trivial

/-- A booking whose status is `cancelled` or `missed` holds no slot. -/
theorem not_live_of_status {b : Booking} (h : b.Status = cancelled ∨ b.Status = missed) :
    ¬ live b := by
  unfold live
  rcases h with h | h <;> rw [h] <;> decide

/-- Every tidy call preserves the invariant. -/
theorem slotInv_step {s : Store} (op : Op) (hinv : SlotInv s) (hop : op.tidy s) :
    SlotInv (step s op) := by
  refine ⟨bookingsInv_step op hinv.1 (keepsClosed_of_tidy hop), ?_⟩
  obtain ⟨hbinv, core⟩ := hinv
  cases op with
  | updateBookingStatus bookingID status => exact absurd hop id
  | createAvailableSlot expertID req now =>
    simp only [step]
    split
    · rename_i s' hok
      obtain ⟨_, hno, hslots, hnext, hbook, _, _⟩ := createAvailableSlot_ok_inv hok
      rw [hslots, hnext, hbook]
      apply slotCore_addSlot core _ rfl
      intro sl hsl hE hov
      exact hop.2 sl hsl hE (enclosed_of_overlap_unflagged hov (hno sl hsl hE))
    · exact core
  | createBooking userID req =>
    simp only [step]
    split
    · rename_i b s' hok
      obtain ⟨_, M, _, _, _, _, hslot, hb, hs⟩ := createBooking_ok_inv hok
      have hMmem : M ∈ s.slots := List.mem_of_find?_eq_some hslot
      have hp := List.find?_some hslot
      simp only [Bool.and_eq_true, beq_iff_eq, decide_eq_true_eq] at hp
      subst hs
      show SlotCore (markSlotBooked s.slots M.ID) (s.bookings ++ [b]) s.nextSlotID
      have core' : SlotCore (markSlotBooked s.slots M.ID) (s.bookings.map id) s.nextSlotID := by
        unfold markSlotBooked
        apply slotCore_update _ id _ (fun x _ _ => rfl) _ core
        · intro sl
          dsimp only
          split <;> exact ⟨rfl, rfl, rfl, rfl⟩
        · intro sl _ hfr
          left
          split at hfr
          · cases hfr
          · exact hfr
      rw [List.map_id] at core'
      have hfM : ({ M with IsBooked := true } : AvailableSlot) ∈ markSlotBooked s.slots M.ID := by
        rw [markSlotBooked, List.mem_map]
        exact ⟨M, hMmem, by simp⟩
      apply slotCore_addBooking core' { M with IsBooked := true } b hfM rfl
      · rw [hb]
        exact ⟨hp.1.1.1, hp.1.1.2, hp.1.2⟩
      · rw [hb]
        exact hop
      · intro x hx hlive hc
        exact core.2.2.2.2.2.1 M hMmem hp.2 x hx hlive hc
    · exact core
  | cancelBooking bookingID userID reason now =>
    simp only [step]
    split
    · rename_i s' hok
      obtain ⟨c, hfirst, hcid, _, hs⟩ := cancelBooking_ok_inv hok
      have hcmem : c ∈ s.bookings := List.mem_of_find?_eq_some hfirst
      have hclive : live c := hop c hcmem hcid
      subst hs
      show SlotCore (freeSlots s.slots c.ExpertID c.StartTime c.EndTime)
        (setCancelled s.bookings bookingID reason) s.nextSlotID
      unfold freeSlots setCancelled
      have hg : ∀ x ∈ s.bookings,
          live (if (x.ID == bookingID) = true then
            { x with Status := cancelled, CancelReason := reason } else x) →
          x.ID ≠ bookingID := by
        intro x _ hlive hxid
        rw [if_pos (by simpa using hxid)] at hlive
        exact not_live_of_status (Or.inl rfl) hlive
      apply slotCore_update _ _ _ _ _ core
      · intro sl
        dsimp only
        split <;> exact ⟨rfl, rfl, rfl, rfl⟩
      · intro x hx hlive
        have hne := hg x hx hlive
        rw [if_neg (by simpa using hne)]
      · intro sl hsl hfr
        by_cases hcont : (sl.ExpertID == c.ExpertID && decide (sl.StartTime ≤ c.StartTime) &&
            decide (sl.EndTime ≥ c.EndTime)) = true
        · right
          intro x hx hlive hxc
          have hne := hg x hx hlive
          rw [if_neg (by simpa using hne)] at hlive
          simp only [Bool.and_eq_true, beq_iff_eq, decide_eq_true_eq] at hcont
          have hcc : slotContains sl c := ⟨hcont.1.1, hcont.1.2, hcont.2⟩
          have := core.2.2.2.2.2.2 sl hsl x hx c hcmem hlive hclive hxc hcc
          rw [this] at hne
          exact hne hcid
        · left
          rw [if_neg hcont] at hfr
          exact hfr
    · exact core
  | expiryPass now =>
    simp only [step]
    have hids := nodup_ids_of_pairwise hbinv.2
    have hb := processExpiredBookings_bookings s now hids
    have hsl : (Worker.processExpiredBookings s now).slots = _ :=
      expireLoop_slots
        (s.bookings.filter (fun b => decide (b.EndTime < now) && b.Status == pending)) s
    have hn : (Worker.processExpiredBookings s now).nextSlotID = s.nextSlotID :=
      expireLoop_nextSlotID _ s
    rw [hb, hsl, hn]
    have hg : ∀ x ∈ s.bookings,
        live (if x.EndTime < now ∧ x.Status = pending then { x with Status := missed } else x) →
        ¬ (x.EndTime < now ∧ x.Status = pending) := by
      intro x _ hlive hexp
      rw [if_pos hexp] at hlive
      exact not_live_of_status (Or.inr rfl) hlive
    apply slotCore_update _ _ _ _ _ core
    · intro sl
      dsimp only
      split <;> exact ⟨rfl, rfl, rfl, rfl⟩
    · intro x hx hlive
      rw [if_neg (hg x hx hlive)]
    · intro sl hsl' hfr
      by_cases hany : (s.bookings.filter
          (fun b => decide (b.EndTime < now) && b.Status == pending)).any
          (fun e => sl.ExpertID == e.ExpertID && decide (sl.StartTime ≤ e.StartTime) &&
            decide (sl.EndTime ≥ e.EndTime)) = true
      · right
        intro x hx hlive hxc
        have hne := hg x hx hlive
        rw [if_neg hne] at hlive
        rw [List.any_eq_true] at hany
        obtain ⟨e, he, hcont⟩ := hany
        rw [List.mem_filter] at he
        simp only [Bool.and_eq_true, beq_iff_eq, decide_eq_true_eq] at hcont he
        have hec : slotContains sl e := ⟨hcont.1.1, hcont.1.2, hcont.2⟩
        have helive : live e := Or.inl he.2.2
        have := core.2.2.2.2.2.2 sl hsl' x hx e he.1 hlive helive hxc hec
        rw [this] at hne
        exact hne ⟨he.2.1, he.2.2⟩
      · left
        rw [if_neg hany] at hfr
        exact hfr

/-- The invariant holds after every tidy sequence of calls. -/
theorem slotInv_run (ops : List Op) (s : Store) (hinv : SlotInv s) (hops : tidyRun s ops) :
    SlotInv (run s ops) := by
  induction ops generalizing s with
  | nil => exact hinv
  | cons op rest ih =>
    simp only [run, List.foldl_cons]
    exact ih (step s op) (slotInv_step op hinv hops.1) hops.2

/-- C11 as amended: in every store reached from a store without slots and bookings by
a sequence of `CreateAvailableSlot`, `CreateBooking`, `CancelBooking` and expiry
passes executed one at a time, in which every requested interval has start before
end, no slot request strictly encloses a stored slot of the same expert, and
`CancelBooking` is called only for bookings that are pending or confirmed, each slot
contains the interval of at most one pending or confirmed booking of its expert. -/
theorem slot_held_once_on_tidy_runs (experts : List Expert) (ops : List Op)
    (hops : tidyRun (emptyStore experts) ops) :
    SlotHeldOnce (run (emptyStore experts) ops) := by
  have hinit : SlotInv (emptyStore experts) := by
    refine ⟨⟨fun x hx => absurd hx (List.not_mem_nil x), List.Pairwise.nil⟩, ?_⟩
    refine ⟨?_, ?_, ?_, ?_, ?_, ?_, ?_⟩ <;> intro x hx <;> exact absurd hx (List.not_mem_nil x)
  exact (slotInv_run ops (emptyStore experts) hinit hops).2.2.2.2.2.2.2

/-- C11 as amended, at a concrete input: the tidy sequence `tidyOps` of a slot
request, bookings, a cancellation of a pending booking and an expiry pass. -/
theorem slot_held_once_on_tidy_runs_witness :
    SlotHeldOnce (run (emptyStore [expertOne]) tidyOps) :=
  slot_held_once_on_tidy_runs [expertOne] tidyOps (by decide)


/-! ## The retention pass -/

/-- The rows the retention pass leaves visible: the visible rows that are not older
than the threshold, in their order. -/
theorem visible_after_cleanup (l : List Notification) (now threshold : Int) :
    (l.map (fun n =>
      if (decide (n.CreatedAt < threshold) && n.DeletedAt.isNone) = true
      then { n with DeletedAt := some now } else n)).filter (fun n => n.DeletedAt.isNone) =
    (l.filter (fun n => n.DeletedAt.isNone)).filter (fun n => decide (n.CreatedAt ≥ threshold)) := by
  induction l with
  | nil => rfl
  | cons n rest ih =>
    simp only [List.map_cons, List.filter_cons]
    rw [ih]
    by_cases hdel : n.DeletedAt.isNone = true
    · by_cases hold : n.CreatedAt < threshold
      · have hnot : ¬ threshold ≤ n.CreatedAt := by omega
        simp [hdel, hold, hnot]
      · have hge : threshold ≤ n.CreatedAt := by omega
        simp [hdel, hold, hge]
    · simp [hdel]

/-- C21: the retention pass run at time `now` removes from the ledger, that is from
the notifications the queries see, exactly those whose `createdAt` is earlier than
`now` minus 30 days, by setting their `deleted_at`; it reports their number; and it
leaves every notification with `createdAt >= now - 30 days` present and unchanged, in
its place. No other table changes. -/
theorem cleanupOldNotifications_effect (s : Store) (now : Int) :
    visibleNotifications (Worker.cleanupOldNotifications s now).1 =
      (visibleNotifications s).filter (fun n => decide (n.CreatedAt ≥ now - thirtyDays)) ∧
    (∀ n : Notification, n ∈ visibleNotifications (Worker.cleanupOldNotifications s now).1 ↔
      (n ∈ visibleNotifications s ∧ ¬ n.CreatedAt < now - thirtyDays)) ∧
    (Worker.cleanupOldNotifications s now).2 =
      ((visibleNotifications s).filter (fun n => decide (n.CreatedAt < now - thirtyDays))).length ∧
    (Worker.cleanupOldNotifications s now).1.notifications.length = s.notifications.length ∧
    (∀ (i : Nat) (n : Notification), s.notifications[i]? = some n →
      n.CreatedAt ≥ now - thirtyDays →
        (Worker.cleanupOldNotifications s now).1.notifications[i]? = some n) ∧
    (Worker.cleanupOldNotifications s now).1.bookings = s.bookings ∧
    (Worker.cleanupOldNotifications s now).1.slots = s.slots ∧
    (Worker.cleanupOldNotifications s now).1.cache = s.cache := by
  have hvis : visibleNotifications (Worker.cleanupOldNotifications s now).1 =
      (visibleNotifications s).filter (fun n => decide (n.CreatedAt ≥ now - thirtyDays)) :=
    visible_after_cleanup s.notifications now (now - thirtyDays)
  refine ⟨hvis, ?_, ?_, ?_, ?_, rfl, rfl, rfl⟩
  · intro n
    rw [hvis, List.mem_filter]
    simp only [decide_eq_true_eq, ge_iff_le, not_lt]
  · simp only [Worker.cleanupOldNotifications, visibleNotifications, List.filter_filter]
  · simp [Worker.cleanupOldNotifications]
  · intro i n hi hge
    have hnot : ¬ n.CreatedAt < now - thirtyDays := by omega
    simp [Worker.cleanupOldNotifications, List.getElem?_map, hi, hnot]

/-- C21 at a concrete input: the pass at day 40 over records of day 0, day 10 sharp,
day 10 plus one second and day 20 reports one removed record and leaves the three
records written at or after day 10, the threshold, unchanged. -/
theorem cleanupOldNotifications_example :
    (3456000 : Int) - thirtyDays = 864000 ∧
    (visibleNotifications storeWithNotifications).map (fun n => (n.ID, n.CreatedAt)) =
      [(1, 0), (2, 864000), (3, 864001), (4, 1728000)] ∧
    (Worker.cleanupOldNotifications storeWithNotifications 3456000).2 = 1 ∧
    (visibleNotifications (Worker.cleanupOldNotifications storeWithNotifications 3456000).1).map
      (fun n => (n.ID, n.CreatedAt)) = [(2, 864000), (3, 864001), (4, 1728000)] ∧
    (Worker.cleanupOldNotifications
      (Worker.cleanupOldNotifications storeWithNotifications 3456000).1 3456000).2 = 0 := by
  decide

end ConsultationBooking
